import Mathlib

/-!
Verification development for the B_Ruge roguelike core.

Shallow embedding of the game's data model and systems:
the spatial grid (`Map`), the room generator, the turn state machine,
the combat and damage pipeline, the item interaction systems and the
monster AI.  Rust `i32` coordinates are embedded as `Int`; Rust `usize`
casts (which wrap modulo `2 ^ 64` in release builds) are embedded
explicitly via `toUsize`.  Vectors indexed by the linearized tile index
are embedded as total functions `Nat → _` (the source code only reads
them at indices validated against the map size).  Fallible code
(`unwrap` / `expect` panics) is embedded with `Option`-valued runs,
where `none` marks a panic.
-/

namespace BRuge

/-- The two tile kinds of `map.rs` (`TileType`). -/
inductive TileType where
  | FLOOR
  | WALL
deriving DecidableEq

/-- `rectangle.rs`: a room rectangle, fields as in the source. -/
structure Rectangle where
  left : Int
  top : Int
  right : Int
  bottom : Int
deriving DecidableEq

namespace Rectangle

/-- `Rectangle::new(x, y, width, height)`. -/
def new (x y width height : Int) : Rectangle :=
  { left := x, top := y, right := x + width, bottom := y + height }

/-- `Rectangle::overlaps`: the inclusive rectangle-overlap test. -/
def overlaps (self other : Rectangle) : Bool :=
  decide (self.left ≤ other.right) && decide (self.right ≥ other.left) &&
    decide (self.top ≤ other.bottom) && decide (self.bottom ≥ other.top)

/-- `Rectangle::center`: integer midpoint (`Int` division as Rust `i32 /`
on the nonnegative values produced by the generator). -/
def center (self : Rectangle) : Int × Int :=
  ((self.left + self.right) / 2, (self.top + self.bottom) / 2)

end Rectangle

/-- The game map of `map.rs`.  The parallel per-tile vectors are embedded
as total functions from the linearized index. -/
structure Map where
  width : Int
  height : Int
  tiles : Nat → TileType
  rooms : List Rectangle
  explored_tiles : Nat → Bool
  tiles_in_fov : Nat → Bool
  blocked_tiles : Nat → Bool
  tile_contents : Nat → List Nat

/-- Rust `as usize` on an `i32` value: two's-complement wrap into `[0, 2^64)`. -/
def toUsize (n : Int) : Nat :=
  (n % (2 ^ 64 : Int)).toNat

namespace Map

/-- `Map::coordinates_to_idx`: `(y as usize * self.width as usize) + x as usize`,
with the `usize` arithmetic wrapping modulo `2 ^ 64`. -/
def coordinates_to_idx (self : Map) (x y : Int) : Nat :=
  (toUsize y * toUsize self.width + toUsize x) % 2 ^ 64

/-- `Map::idx_to_coordinates`: `(idx % width, idx / width)` after an
`as i32` cast of `idx` (no wrap for the in-range indices the game uses). -/
def idx_to_coordinates (self : Map) (idx : Nat) : Int × Int :=
  ((idx : Int) % self.width, (idx : Int) / self.width)

/-- `Map::check_idx_result`: `Ok(idx)` when `idx > 0 && idx < width * height`
(the `usize` product wraps), `Err` otherwise.  The error string is dropped:
`some` stands for `Ok`, `none` for `Err`. -/
def check_idx_result (self : Map) (x y : Int) : Option Nat :=
  let idx := self.coordinates_to_idx x y
  if 0 < idx ∧ idx < (toUsize self.width * toUsize self.height) % 2 ^ 64 then
    some idx
  else
    none

/-- `Map::check_idx`: `true` exactly on the `Ok` branch of `check_idx_result`. -/
def check_idx (self : Map) (x y : Int) : Bool :=
  (self.check_idx_result x y).isSome

/-- `Map::is_tile_walkable`: negation of the blocked flag on the `Ok`
branch, `false` on the `Err` branch (the error is only logged). -/
def is_tile_walkable (self : Map) (x y : Int) : Bool :=
  match self.check_idx_result x y with
  | some idx => !(self.blocked_tiles idx)
  | none => false

/-- `Map::set_tile`. -/
def set_tile (self : Map) (x y : Int) (tile : TileType) : Map :=
  let idx := self.coordinates_to_idx x y
  { self with tiles := fun i => if i = idx then tile else self.tiles i }

/-- `Map::set_tile_is_blocked`. -/
def set_tile_is_blocked (self : Map) (x y : Int) (blocked : Bool) : Map :=
  let idx := self.coordinates_to_idx x y
  { self with blocked_tiles := fun i => if i = idx then blocked else self.blocked_tiles i }

/-- `Map::refresh_blocked_tiles`: recompute the blocked bitmap purely from
`TileType::WALL`. -/
def refresh_blocked_tiles (self : Map) : Map :=
  { self with blocked_tiles := fun i => decide (self.tiles i = TileType.WALL) }

end Map

/-- A small all-floor map used to instantiate theorems. -/
def sampleMap : Map :=
  { width := 4
    height := 4
    tiles := fun _ => TileType.FLOOR
    rooms := []
    explored_tiles := fun _ => false
    tiles_in_fov := fun _ => false
    blocked_tiles := fun _ => false
    tile_contents := fun _ => [] }

/-- `toUsize` is the identity on small nonnegative values. -/
theorem toUsize_of_small {n : Int} (h0 : 0 ≤ n) (h1 : n < 2 ^ 31) :
    toUsize n = n.toNat := by
  unfold toUsize
  omega

/-- For in-range nonnegative coordinates on a well-formed map the wrapped
index computation agrees with the mathematical `y * width + x`. -/
theorem coordinates_to_idx_eq (m : Map) (x y : Int)
    (hx0 : 0 ≤ x) (hx1 : x < 2 ^ 31) (hy0 : 0 ≤ y) (hy1 : y < 2 ^ 31)
    (hw0 : 0 < m.width) (hw1 : m.width < 2 ^ 31) :
    m.coordinates_to_idx x y = (y * m.width + x).toNat := by
  unfold Map.coordinates_to_idx
  rw [toUsize_of_small hy0 hy1, toUsize_of_small (le_of_lt hw0) hw1,
    toUsize_of_small hx0 hx1]
  have hmul : y.toNat * m.width.toNat < 2 ^ 31 * 2 ^ 31 := by
    exact Nat.mul_lt_mul_of_lt_of_lt (by omega) (by omega)
  have hsum : y.toNat * m.width.toNat + x.toNat < 2 ^ 64 := by omega
  rw [Nat.mod_eq_of_lt hsum]
  have hy' : ((y.toNat : Int)) = y := Int.toNat_of_nonneg hy0
  have hw' : ((m.width.toNat : Int)) = m.width := Int.toNat_of_nonneg (le_of_lt hw0)
  have hx' : ((x.toNat : Int)) = x := Int.toNat_of_nonneg hx0
  have : y * m.width + x = ((y.toNat * m.width.toNat + x.toNat : Nat) : Int) := by
    push_cast
    rw [hy', hw', hx']
  rw [this, Int.toNat_natCast]

/-- The wrapped `usize` product `width * height` agrees with the
mathematical product for `i32`-ranged dimensions. -/
theorem size_product_eq (m : Map)
    (hw0 : 0 < m.width) (hw1 : m.width < 2 ^ 31)
    (hh0 : 0 < m.height) (hh1 : m.height < 2 ^ 31) :
    (toUsize m.width * toUsize m.height) % 2 ^ 64 = (m.width * m.height).toNat := by
  rw [toUsize_of_small (le_of_lt hw0) hw1, toUsize_of_small (le_of_lt hh0) hh1]
  have hmul : m.width.toNat * m.height.toNat < 2 ^ 31 * 2 ^ 31 := by
    exact Nat.mul_lt_mul_of_lt_of_lt (by omega) (by omega)
  rw [Nat.mod_eq_of_lt (by omega)]
  have hw' : ((m.width.toNat : Int)) = m.width := Int.toNat_of_nonneg (le_of_lt hw0)
  have hh' : ((m.height.toNat : Int)) = m.height := Int.toNat_of_nonneg (le_of_lt hh0)
  have : m.width * m.height = ((m.width.toNat * m.height.toNat : Nat) : Int) := by
    push_cast
    rw [hw', hh']
  rw [this, Int.toNat_natCast]

/-- C4: `check_idx_result(x, y)` returns `Ok(y * width + x)` exactly when
`0 < y * width + x < width * height` and an error otherwise; the index `0`
(coordinate `(0, 0)`) is always reported invalid; and `check_idx` returns
`true` exactly when `check_idx_result` is `Ok`. -/
theorem check_idx_result_spec (m : Map) (x y : Int)
    (hx0 : 0 ≤ x) (hx1 : x < 2 ^ 31) (hy0 : 0 ≤ y) (hy1 : y < 2 ^ 31)
    (hw0 : 0 < m.width) (hw1 : m.width < 2 ^ 31)
    (hh0 : 0 < m.height) (hh1 : m.height < 2 ^ 31) :
    (m.check_idx_result x y =
      if 0 < y * m.width + x ∧ y * m.width + x < m.width * m.height then
        some ((y * m.width + x).toNat)
      else
        none)
    ∧ m.check_idx_result 0 0 = none
    ∧ (m.check_idx x y = true ↔ ∃ i, m.check_idx_result x y = some i) := by
  have hidx := coordinates_to_idx_eq m x y hx0 hx1 hy0 hy1 hw0 hw1
  have hprod := size_product_eq m hw0 hw1 hh0 hh1
  refine ⟨?_, ?_, ?_⟩
  · unfold Map.check_idx_result
    rw [hidx, hprod]
    by_cases h : 0 < y * m.width + x ∧ y * m.width + x < m.width * m.height
    · rw [if_pos h, if_pos (by omega)]
    · rw [if_neg h, if_neg (by omega)]
  · unfold Map.check_idx_result Map.coordinates_to_idx
    have h0 : toUsize 0 = 0 := by unfold toUsize; omega
    rw [h0]
    simp
  · unfold Map.check_idx
    cases hres : m.check_idx_result x y with
    | none => simp [hres]
    | some i => simp [hres]

/-- Witness for `check_idx_result_spec` on the 4×4 sample map at `(2, 3)`. -/
theorem check_idx_result_spec_witness :
    sampleMap.check_idx_result 2 3 = some 14 ∧ sampleMap.check_idx 2 3 = true := by
  have h := check_idx_result_spec sampleMap 2 3 (by decide) (by decide) (by decide)
    (by decide) (by decide) (by decide) (by decide) (by decide)
  constructor
  · rw [h.1]
    decide
  · decide

/-- C3 (amended): `is_tile_walkable(x, y)` returns the negation of the
blocked flag at `y * width + x` exactly when `0 < y * width + x < width * height`
(the `check_idx_result` validity condition), and `false` otherwise — in
particular index `0`, i.e. coordinate `(0, 0)`, is always unwalkable. -/
theorem is_tile_walkable_spec (m : Map) (x y : Int)
    (hx0 : 0 ≤ x) (hx1 : x < 2 ^ 31) (hy0 : 0 ≤ y) (hy1 : y < 2 ^ 31)
    (hw0 : 0 < m.width) (hw1 : m.width < 2 ^ 31)
    (hh0 : 0 < m.height) (hh1 : m.height < 2 ^ 31) :
    m.is_tile_walkable x y =
      if 0 < y * m.width + x ∧ y * m.width + x < m.width * m.height then
        !(m.blocked_tiles ((y * m.width + x).toNat))
      else
        false := by
  have h := (check_idx_result_spec m x y hx0 hx1 hy0 hy1 hw0 hw1 hh0 hh1).1
  unfold Map.is_tile_walkable
  rw [h]
  by_cases hc : 0 < y * m.width + x ∧ y * m.width + x < m.width * m.height
  · rw [if_pos hc, if_pos hc]
  · rw [if_neg hc, if_neg hc]

/-- Witness for `is_tile_walkable_spec`: on the unblocked 4×4 sample map,
`(2, 3)` is walkable via the theorem. -/
theorem is_tile_walkable_spec_witness : sampleMap.is_tile_walkable 2 3 = true := by
  have h := is_tile_walkable_spec sampleMap 2 3 (by decide) (by decide) (by decide)
    (by decide) (by decide) (by decide) (by decide) (by decide)
  rw [h]
  decide

/-! ## Room/corridor generator (`Map::new_map_with_rooms`) -/

/-- Inclusive integer range `lo..=hi` (empty when `lo > hi`). -/
def intRange (lo hi : Int) : List Int :=
  (List.range (hi + 1 - lo).toNat).map (fun k => lo + (k : Int))

namespace Map

/-- `Map::draw_room`: carve `FLOOR` for `x` in `left+1..=right`, `y` in
`top+1..=bottom`. -/
def draw_room (self : Map) (room : Rectangle) : Map :=
  (intRange (room.left + 1) room.right).foldl
    (fun m x =>
      (intRange (room.top + 1) room.bottom).foldl
        (fun m2 y => m2.set_tile x y TileType.FLOOR) m)
    self

/-- `Map::draw_horizontal_intersection`: carve `FLOOR` along `y` from the
minimum to the maximum of the two x coordinates, skipping (and only
logging) indices rejected by `check_idx_result`. -/
def draw_horizontal_intersection (self : Map) (start_x end_x y : Int) : Map :=
  (intRange (min start_x end_x) (max start_x end_x)).foldl
    (fun m x =>
      match m.check_idx_result x y with
      | some idx => { m with tiles := fun i => if i = idx then TileType.FLOOR else m.tiles i }
      | none => m)
    self

/-- `Map::draw_vertical_intersection`: carve `FLOOR` along `x` from the
minimum to the maximum of the two y coordinates, skipping indices
rejected by `check_idx_result`. -/
def draw_vertical_intersection (self : Map) (start_y end_y x : Int) : Map :=
  (intRange (min start_y end_y) (max start_y end_y)).foldl
    (fun m y =>
      match m.check_idx_result x y with
      | some idx => { m with tiles := fun i => if i = idx then TileType.FLOOR else m.tiles i }
      | none => m)
    self

end Map

/-- One loop iteration's random draws in `new_map_with_rooms`: the sampled
room width and height, the sampled top-left corner (the source derives
`x` from `roll_dice(1, width - room_width - 1) - 1`; quantifying over all
integer corners covers every dice outcome) and the corridor-orientation
coin `rng.range(0, 2)`. -/
structure RoomRand where
  room_width : Int
  room_height : Int
  x : Int
  y : Int
  coin : Int

/-- One iteration of the room-placement loop of `Map::new_map_with_rooms`:
build the candidate rectangle, reject it if it overlaps any already
placed room, otherwise carve it, connect it to the previous room with an
L-shaped corridor whose orientation follows the coin, and append it to
the rooms list. -/
def roomStep (m : Map) (c : RoomRand) : Map :=
  let room := Rectangle.new c.x c.y c.room_width c.room_height
  let can_place := m.rooms.all (fun existing_room => !(room.overlaps existing_room))
  if can_place then
    let m1 := m.draw_room room
    let m2 :=
      match m1.rooms.getLast? with
      | none => m1
      | some previous_room =>
        let new_room_center := room.center
        let previous_room_center := previous_room.center
        if c.coin = 1 then
          (m1.draw_horizontal_intersection previous_room_center.1 new_room_center.1
              previous_room_center.2).draw_vertical_intersection
            previous_room_center.2 new_room_center.2 new_room_center.1
        else
          (m1.draw_vertical_intersection previous_room_center.2 new_room_center.2
              previous_room_center.1).draw_horizontal_intersection
            previous_room_center.1 new_room_center.1 new_room_center.2
    { m2 with rooms := m2.rooms ++ [room] }
  else
    m

/-- `Map::new_map_with_rooms`, parametrized by the per-iteration random
draws (the source runs `config::MAX_ROOMS` iterations; the list stands
for any number of iterations with any RNG outcomes). -/
def new_map_with_rooms (width height : Int) (rands : List RoomRand) : Map :=
  rands.foldl roomStep
    { width := width
      height := height
      tiles := fun _ => TileType.WALL
      rooms := []
      explored_tiles := fun _ => false
      tiles_in_fov := fun _ => false
      blocked_tiles := fun _ => false
      tile_contents := fun _ => [] }

/-- The inclusive overlap test is symmetric. -/
theorem overlaps_comm (a b : Rectangle) : a.overlaps b = b.overlaps a := by
  unfold Rectangle.overlaps
  by_cases h1 : a.left ≤ b.right <;> by_cases h2 : b.left ≤ a.right <;>
    by_cases h3 : a.top ≤ b.bottom <;> by_cases h4 : b.top ≤ a.bottom <;>
    simp [h1, h2, h3, h4, ge_iff_le]

/-- `set_tile` only touches `tiles`. -/
theorem rooms_set_tile (m : Map) (x y : Int) (t : TileType) :
    (m.set_tile x y t).rooms = m.rooms := rfl

/-- A fold whose step preserves the rooms list preserves the rooms list. -/
theorem rooms_foldl {α : Type} (step : Map → α → Map)
    (h : ∀ m a, (step m a).rooms = m.rooms) :
    ∀ (l : List α) (m : Map), (l.foldl step m).rooms = m.rooms := by
  intro l
  induction l with
  | nil => intro m; rfl
  | cons a l ih => intro m; rw [List.foldl_cons, ih, h]

/-- `draw_room` does not change the rooms list. -/
theorem rooms_draw_room (m : Map) (room : Rectangle) :
    (m.draw_room room).rooms = m.rooms := by
  unfold Map.draw_room
  apply rooms_foldl
  intro m1 x
  apply rooms_foldl
  intro m2 y
  rfl

/-- `draw_horizontal_intersection` does not change the rooms list. -/
theorem rooms_draw_horizontal (m : Map) (a b y : Int) :
    (m.draw_horizontal_intersection a b y).rooms = m.rooms := by
  unfold Map.draw_horizontal_intersection
  refine rooms_foldl _ (fun m1 x => ?_) _ m
  cases m1.check_idx_result x y <;> rfl

/-- `draw_vertical_intersection` does not change the rooms list. -/
theorem rooms_draw_vertical (m : Map) (a b x : Int) :
    (m.draw_vertical_intersection a b x).rooms = m.rooms := by
  unfold Map.draw_vertical_intersection
  refine rooms_foldl _ (fun m1 y => ?_) _ m
  cases m1.check_idx_result x y <;> rfl

/-- The rooms list of every intermediate map in `roomStep` equals the
input rooms list, so a placed room is appended to the input list. -/
theorem rooms_roomStep (m : Map) (c : RoomRand) :
    (roomStep m c).rooms =
      if m.rooms.all
          (fun ex => !((Rectangle.new c.x c.y c.room_width c.room_height).overlaps ex)) then
        m.rooms ++ [Rectangle.new c.x c.y c.room_width c.room_height]
      else
        m.rooms := by
  unfold roomStep
  by_cases h : m.rooms.all
      (fun ex => !((Rectangle.new c.x c.y c.room_width c.room_height).overlaps ex))
  · rw [if_pos h, if_pos h]
    cases hlast :
        (m.draw_room (Rectangle.new c.x c.y c.room_width c.room_height)).rooms.getLast? with
    | none =>
      simp only [hlast]
      rw [rooms_draw_room]
    | some prev =>
      simp only [hlast]
      by_cases hc : c.coin = 1
      · rw [if_pos hc, rooms_draw_vertical, rooms_draw_horizontal, rooms_draw_room]
      · rw [if_neg hc, rooms_draw_horizontal, rooms_draw_vertical, rooms_draw_room]
  · rw [if_neg h, if_neg h]

/-- `roomStep` preserves pairwise non-overlap of the rooms list. -/
theorem roomStep_pairwise (m : Map) (c : RoomRand)
    (h : m.rooms.Pairwise (fun a b => a.overlaps b = false)) :
    (roomStep m c).rooms.Pairwise (fun a b => a.overlaps b = false) := by
  rw [rooms_roomStep]
  by_cases hp : m.rooms.all
      (fun ex => !((Rectangle.new c.x c.y c.room_width c.room_height).overlaps ex))
  · rw [if_pos hp]
    rw [List.pairwise_append]
    refine ⟨h, List.pairwise_singleton _ _, ?_⟩
    intro a ha b hb
    rw [List.mem_singleton] at hb
    subst hb
    have := List.all_eq_true.mp hp a ha
    rw [overlaps_comm]
    simpa using this
  · rw [if_neg hp]
    exact h

/-- A fold of `roomStep` preserves pairwise non-overlap of the rooms list. -/
theorem foldl_roomStep_pairwise (rands : List RoomRand) :
    ∀ m0 : Map, m0.rooms.Pairwise (fun a b => a.overlaps b = false) →
      (rands.foldl roomStep m0).rooms.Pairwise (fun a b => a.overlaps b = false) := by
  induction rands with
  | nil =>
    intro m0 h
    exact h
  | cons c cs ih =>
    intro m0 h
    rw [List.foldl_cons]
    exact ih _ (roomStep_pairwise m0 c h)

/-- C9: every map produced by the room generator has a pairwise
non-overlapping rooms list — for every pair of distinct indices the
inclusive `Rectangle::overlaps` test returns `false`. -/
theorem new_map_with_rooms_no_overlap (width height : Int) (rands : List RoomRand)
    (i j : Nat) (hi : i < (new_map_with_rooms width height rands).rooms.length)
    (hj : j < (new_map_with_rooms width height rands).rooms.length) (hne : i ≠ j) :
    ((new_map_with_rooms width height rands).rooms.get ⟨i, hi⟩).overlaps
      ((new_map_with_rooms width height rands).rooms.get ⟨j, hj⟩) = false := by
  have hpair : (new_map_with_rooms width height rands).rooms.Pairwise
      (fun a b => a.overlaps b = false) :=
    foldl_roomStep_pairwise rands _ List.Pairwise.nil
  have hget := List.pairwise_iff_get.mp hpair
  rcases Nat.lt_or_ge i j with hij | hij
  · exact hget ⟨i, hi⟩ ⟨j, hj⟩ hij
  · have hji : j < i := by omega
    rw [overlaps_comm]
    exact hget ⟨j, hj⟩ ⟨i, hi⟩ hji

set_option maxRecDepth 100000 in
/-- Witness for `new_map_with_rooms_no_overlap`: two concrete accepted
rooms on a 20×20 map do not overlap. -/
theorem new_map_with_rooms_no_overlap_witness :
    ((new_map_with_rooms 20 20
        [⟨3, 3, 1, 1, 0⟩, ⟨3, 3, 10, 10, 0⟩]).rooms.get
      ⟨0, by decide⟩).overlaps
      ((new_map_with_rooms 20 20
          [⟨3, 3, 1, 1, 0⟩, ⟨3, 3, 10, 10, 0⟩]).rooms.get
        ⟨1, by decide⟩) = false :=
  new_map_with_rooms_no_overlap 20 20 [⟨3, 3, 1, 1, 0⟩, ⟨3, 3, 10, 10, 0⟩]
    0 1 (by decide) (by decide) (by decide)

/-! ## Components (`components.rs`) -/

/-- `Position` component. -/
structure Position where
  x : Int
  y : Int
deriving DecidableEq

/-- `Statistics` component. -/
structure Statistics where
  hp_max : Int
  hp : Int
  power : Int
  defense : Int
deriving DecidableEq

/-- `MeleeAttack` intent component; the target entity is an id. -/
structure MeleeAttack where
  target : Nat
deriving DecidableEq

/-- `DamageCounter` component. -/
structure DamageCounter where
  damage_values : List Int
deriving DecidableEq

/-- `Name` component. -/
structure Name where
  name : String
deriving DecidableEq

/-- `Loot` component: item is in the owner's inventory. -/
structure Loot where
  owner : Nat
deriving DecidableEq

/-- `PickupItem` intent component. -/
structure PickupItem where
  collector : Nat
  item : Nat
deriving DecidableEq

/-- `DropItem` intent component. -/
structure DropItem where
  item : Nat
deriving DecidableEq

/-! ## Turn state machine (`state.rs`) -/

/-- `ProcessingState` of `state.rs`; the targeting payload's entity is an id. -/
inductive ProcessingState where
  | Internal
  | Dialog
  | WaitingForInput
  | PlayerTurn
  | PlayerIsTargeting (range : Int) (entity : Nat)
  | MonsterTurn
deriving DecidableEq

/-- `TargetSelectionState` outcome of `draw_player_ranged_targeting`. -/
inductive TargetSelectionState where
  | Cancel
  | Selecting
  | Selected
deriving DecidableEq

/-- `DialogResult` of `dialog.rs`: a selection's callback supplies the next
stored state, otherwise the dialog keeps waiting. -/
inductive DialogResult where
  | Consumed (next_state : ProcessingState)
  | Waiting
deriving DecidableEq

/-- `State::get_processing_state`: the effective state of a tick is forced
to `Dialog` whenever a `DialogInterface` is registered. -/
def get_processing_state (stored : ProcessingState) (has_dialog : Bool) : ProcessingState :=
  if has_dialog then ProcessingState.Dialog else stored

/-- State-level embedding of `State::tick`: the effective state is read via
`get_processing_state`, the `match` mirrors the source branches (the system
pipeline's component effects are modelled by the dedicated system
embeddings below), cleanup runs unconditionally and may register a dialog,
and a shown dialog that is consumed is removed and overrides the next
stored state with its callback's result.  External collaborators are
parameters: `input_result` is what `player_handle_input` returns (and
`input_registers_dialog` whether it registered a dialog),
`target_selection` the targeting UI outcome, `dialog_result` what
`DialogInterface::show` returns.  The result is the persisted stored state
and whether a dialog is registered after the tick. -/
def tick (stored : ProcessingState) (has_dialog : Bool)
    (input_result : ProcessingState) (input_registers_dialog : Bool)
    (target_selection : TargetSelectionState)
    (cleanup_registers_dialog : Bool) (dialog_result : DialogResult) :
    ProcessingState × Bool :=
  let effective := get_processing_state stored has_dialog
  let next_processing_state : ProcessingState :=
    match effective with
    | ProcessingState.Dialog => ProcessingState.Dialog
    | ProcessingState.Internal => ProcessingState.WaitingForInput
    | ProcessingState.WaitingForInput => input_result
    | ProcessingState.PlayerTurn => ProcessingState.MonsterTurn
    | ProcessingState.PlayerIsTargeting range entity =>
      (match target_selection with
       | TargetSelectionState.Cancel => ProcessingState.WaitingForInput
       | TargetSelectionState.Selecting => ProcessingState.PlayerIsTargeting range entity
       | TargetSelectionState.Selected => ProcessingState.PlayerTurn)
    | ProcessingState.MonsterTurn => ProcessingState.Internal
  let dialog_after_cleanup : Bool :=
    (has_dialog ||
      (match effective with
       | ProcessingState.WaitingForInput => input_registers_dialog
       | _ => false)) || cleanup_registers_dialog
  match effective with
  | ProcessingState.Dialog =>
    (match dialog_result with
     | DialogResult.Consumed next_state => (next_state, false)
     | DialogResult.Waiting => (next_processing_state, dialog_after_cleanup))
  | _ => (next_processing_state, dialog_after_cleanup)

/-- C2 (amended): whenever a dialog is registered the tick's effective
state is `Dialog` regardless of the stored state; while the dialog is
pending (`Waiting`) the tick persists `Dialog` as the new stored state —
overwriting, not preserving, the previous stored value — and keeps the
dialog registered; once the dialog is consumed the next stored state is
exactly the state the dialog's callback specifies and the dialog is
removed. -/
theorem tick_dialog_override_spec (stored input_result : ProcessingState)
    (input_registers_dialog : Bool) (target_selection : TargetSelectionState)
    (cleanup_registers_dialog : Bool) (s : ProcessingState) :
    get_processing_state stored true = ProcessingState.Dialog
    ∧ tick stored true input_result input_registers_dialog target_selection
        cleanup_registers_dialog DialogResult.Waiting = (ProcessingState.Dialog, true)
    ∧ tick stored true input_result input_registers_dialog target_selection
        cleanup_registers_dialog (DialogResult.Consumed s) = (s, false) := by
  refine ⟨rfl, ?_, ?_⟩ <;> simp [tick, get_processing_state]

/-- C2 counterexample: with stored state `PlayerTurn` and a registered,
still-waiting dialog, the tick persists `Dialog` as the stored state — the
stored `PlayerTurn` value is mutated, refuting the claim that the override
leaves the stored state untouched while the dialog is pending. -/
theorem tick_dialog_pending_counterexample :
    (tick ProcessingState.PlayerTurn true ProcessingState.Internal false
        TargetSelectionState.Selecting false DialogResult.Waiting).1 = ProcessingState.Dialog
    ∧ ProcessingState.Dialog ≠ ProcessingState.PlayerTurn := by
  refine ⟨rfl, by decide⟩

/-! ## Monster AI (`MonsterAI::run`) and click-to-move (`player.rs`) -/

/-- `rltk::NavigationPath`: result of the external A* search. -/
structure NavigationPath where
  success : Bool
  steps : List Nat

/-- The external `rltk::a_star_search` collaborator, as a parameter: it
receives the start index, the end index and the map. -/
abbrev AStar := Nat → Nat → Map → NavigationPath

/-- `pythagoras_distance(p, q) < 1.5` of `MonsterAI::run`.  On integer
lattice points the squared distance is an integer, so the `f32`
comparison against `1.5` is exactly `4 * d² < 9` (no rounding of
`sqrt` can cross the threshold because `d² ≤ 2` and `d² ≥ 3` are both
bounded away from `2.25`). -/
def pythagoras_lt_three_halves (p q : Position) : Bool :=
  decide (4 * ((p.x - q.x) ^ 2 + (p.y - q.y) ^ 2) < 9)

/-- One row of the `(&entities, &mut fovs, &monsters, &mut positions)`
join of `MonsterAI::run`: the monster entity id, its FOV component and
its position. -/
structure MonsterRec where
  id : Nat
  fov_content : List Position
  fov_is_dirty : Bool
  pos : Position
deriving DecidableEq

/-- The monster loop of `MonsterAI::run`: each monster either melee-attacks
the player and ends the whole pass (early `return`), or — when the player
is inside its FOV content and A* finds a path of more than one step —
steps to `path.steps[1]`, unblocking its old tile and blocking the new
one and dirtying its FOV.  Returns the mutated map, the processed monster
list and the inserted `MeleeAttack` intents. -/
def monster_ai_aux (astar : AStar) (player_position : Position) (player_entity : Nat) :
    List MonsterRec → Map → Map × List MonsterRec × List (Nat × MeleeAttack)
  | [], m => (m, [], [])
  | mon :: rest, m =>
    if pythagoras_lt_three_halves mon.pos player_position then
      (m, mon :: rest, [(mon.id, { target := player_entity })])
    else if player_position ∈ mon.fov_content then
      let monster_idx := m.coordinates_to_idx mon.pos.x mon.pos.y
      let player_idx := m.coordinates_to_idx player_position.x player_position.y
      let path := astar monster_idx player_idx m
      if path.success && decide (path.steps.length > 1) then
        let m1 := m.set_tile_is_blocked mon.pos.x mon.pos.y false
        let next_position := m1.idx_to_coordinates (path.steps.getD 1 0)
        let mon' : MonsterRec :=
          { mon with pos := { x := next_position.1, y := next_position.2 }, fov_is_dirty := true }
        let m2 := m1.set_tile_is_blocked next_position.1 next_position.2 true
        let r := monster_ai_aux astar player_position player_entity rest m2
        (r.1, mon' :: r.2.1, r.2.2)
      else
        let r := monster_ai_aux astar player_position player_entity rest m
        (r.1, mon :: r.2.1, r.2.2)
    else
      let r := monster_ai_aux astar player_position player_entity rest m
      (r.1, mon :: r.2.1, r.2.2)

/-- `MonsterAI::run`: returns immediately unless the processing state is
`MonsterTurn`, otherwise runs the monster loop. -/
def monster_ai_run (astar : AStar) (player_position : Position) (player_entity : Nat)
    (processing_state : ProcessingState) (monsters : List MonsterRec) (m : Map) :
    Map × List MonsterRec × List (Nat × MeleeAttack) :=
  if processing_state ≠ ProcessingState.MonsterTurn then
    (m, monsters, [])
  else
    monster_ai_aux astar player_position player_entity monsters m

/-- `PlayerPathing` resource of `data.rs`. -/
structure PlayerPathing where
  steps : List Nat

/-- `handle_new_click_to_move` of `player.rs`: snapshot the blocked map,
refresh it from walls only, run the external A*, restore the snapshot,
and when the search succeeded with more than one step and the clicked
tile is inside the player's FOV content, queue the path (head removed,
reversed) into the pathing resource.  `player_fov` is `fovs.get(*player)`. -/
def handle_new_click_to_move (astar : AStar) (m : Map)
    (player_fov : Option (List Position)) (player_ecs_position mouse_position : Position)
    (pathing : PlayerPathing) : Map × PlayerPathing :=
  let start_idx := m.coordinates_to_idx player_ecs_position.x player_ecs_position.y
  let end_idx := m.coordinates_to_idx mouse_position.x mouse_position.y
  let blocked_tiles := m.blocked_tiles
  let m1 := m.refresh_blocked_tiles
  let path := astar start_idx end_idx m1
  let m2 := { m1 with blocked_tiles := blocked_tiles }
  match player_fov with
  | some fov_content =>
    if path.success && decide (path.steps.length > 1) &&
        decide (mouse_position ∈ fov_content) then
      (m2, { steps := (path.steps.drop 1).reverse })
    else
      (m2, pathing)
  | none => (m2, pathing)

/-- The monster loop inserts at most one `MeleeAttack` intent. -/
theorem monster_ai_aux_attacks_le_one (astar : AStar) (pp : Position) (pe : Nat) :
    ∀ (ms : List MonsterRec) (m : Map),
      (monster_ai_aux astar pp pe ms m).2.2.length ≤ 1 := by
  intro ms
  induction ms with
  | nil =>
    intro m
    simp [monster_ai_aux]
  | cons mon rest ih =>
    intro m
    unfold monster_ai_aux
    split
    · simp
    · split
      · dsimp only
        split
        · simpa using ih _
        · simpa using ih _
      · simpa using ih _

/-- The monster loop, on reaching the first monster within melee range,
emits exactly that monster's attack and leaves it and every later monster
untouched. -/
theorem monster_ai_aux_first_close (astar : AStar) (pp : Position) (pe : Nat) :
    ∀ (ms : List MonsterRec) (m : Map) (k : Nat) (hk : k < ms.length),
      pythagoras_lt_three_halves (ms.get ⟨k, hk⟩).pos pp = true →
      (∀ i (hi : i < k),
        pythagoras_lt_three_halves (ms.get ⟨i, Nat.lt_trans hi hk⟩).pos pp = false) →
      (monster_ai_aux astar pp pe ms m).2.2 = [((ms.get ⟨k, hk⟩).id, { target := pe })]
      ∧ (monster_ai_aux astar pp pe ms m).2.1.drop k = ms.drop k := by
  intro ms
  induction ms with
  | nil =>
    intro m k hk
    exact absurd hk (by simp)
  | cons mon rest ih =>
    intro m k hk hclose hfirst
    cases k with
    | zero =>
      have h1 : pythagoras_lt_three_halves mon.pos pp = true := hclose
      unfold monster_ai_aux
      rw [if_pos h1]
      exact ⟨rfl, rfl⟩
    | succ j =>
      have h0 : pythagoras_lt_three_halves mon.pos pp = false :=
        hfirst 0 (Nat.succ_pos j)
      have hk' : j < rest.length := Nat.lt_of_succ_lt_succ hk
      have hclose' : pythagoras_lt_three_halves (rest.get ⟨j, hk'⟩).pos pp = true := hclose
      have hfirst' : ∀ i (hi : i < j),
          pythagoras_lt_three_halves (rest.get ⟨i, Nat.lt_trans hi hk'⟩).pos pp = false :=
        fun i hi => hfirst (i + 1) (Nat.succ_lt_succ hi)
      unfold monster_ai_aux
      rw [if_neg (by simp [h0])]
      by_cases h2 : pp ∈ mon.fov_content
      · rw [if_pos h2]
        dsimp only
        split
        · obtain ⟨ha, hd⟩ := ih _ j hk' hclose' hfirst'
          exact ⟨ha, by simpa using hd⟩
        · obtain ⟨ha, hd⟩ := ih m j hk' hclose' hfirst'
          exact ⟨ha, by simpa using hd⟩
      · rw [if_neg h2]
        obtain ⟨ha, hd⟩ := ih m j hk' hclose' hfirst'
        exact ⟨ha, by simpa using hd⟩

/-- C10: in a `MonsterTurn` pass, if monster `k` is the first monster in
iteration order within Euclidean distance `< 1.5` of the player, the pass
emits exactly one `MeleeAttack` — from monster `k`, targeting the player
entity — and every monster from `k` onwards is left unchanged (monsters
after the early return neither move nor attack); in any pass at most one
`MeleeAttack` intent is created. -/
theorem monster_ai_single_attack_spec (astar : AStar) (pp : Position) (pe : Nat)
    (ms : List MonsterRec) (m : Map) (k : Nat) (hk : k < ms.length)
    (hclose : pythagoras_lt_three_halves (ms.get ⟨k, hk⟩).pos pp = true)
    (hfirst : ∀ i (hi : i < k),
      pythagoras_lt_three_halves (ms.get ⟨i, Nat.lt_trans hi hk⟩).pos pp = false) :
    (monster_ai_run astar pp pe ProcessingState.MonsterTurn ms m).2.2 =
      [((ms.get ⟨k, hk⟩).id, { target := pe })]
    ∧ (monster_ai_run astar pp pe ProcessingState.MonsterTurn ms m).2.1.drop k = ms.drop k
    ∧ ∀ ps : ProcessingState,
        (monster_ai_run astar pp pe ps ms m).2.2.length ≤ 1 := by
  have hrun : monster_ai_run astar pp pe ProcessingState.MonsterTurn ms m =
      monster_ai_aux astar pp pe ms m := by
    simp [monster_ai_run]
  obtain ⟨ha, hd⟩ := monster_ai_aux_first_close astar pp pe ms m k hk hclose hfirst
  refine ⟨by rw [hrun]; exact ha, by rw [hrun]; exact hd, ?_⟩
  intro ps
  by_cases hps : ps = ProcessingState.MonsterTurn
  · subst hps
    rw [hrun]
    exact monster_ai_aux_attacks_le_one astar pp pe ms m
  · simp [monster_ai_run, hps]

/-- A far-away monster with an empty FOV, used in the C10 witness. -/
def farMonster : MonsterRec :=
  { id := 5, fov_content := [], fov_is_dirty := false, pos := { x := 10, y := 10 } }

/-- A monster adjacent to the player, used in the C10 witness. -/
def closeMonster : MonsterRec :=
  { id := 7, fov_content := [], fov_is_dirty := false, pos := { x := 1, y := 2 } }

/-- A failing external search, used in the C10 witness. -/
def failAstar : AStar := fun _ _ _ => { success := false, steps := [] }

/-- Witness for `monster_ai_single_attack_spec`: with a far first monster
and an adjacent second one, the pass emits exactly the second monster's
attack on the player. -/
theorem monster_ai_single_attack_spec_witness :
    (monster_ai_run failAstar { x := 1, y := 1 } 3 ProcessingState.MonsterTurn
        [farMonster, closeMonster] sampleMap).2.2 = [(7, { target := 3 })] := by
  have hk : 1 < ([farMonster, closeMonster] : List MonsterRec).length := by decide
  have h := monster_ai_single_attack_spec failAstar { x := 1, y := 1 } 3
    [farMonster, closeMonster] sampleMap 1 hk
    (show pythagoras_lt_three_halves closeMonster.pos { x := 1, y := 1 } = true by decide)
    (fun i hi => by
      have h0 : i = 0 := by omega
      subst h0
      show pythagoras_lt_three_halves farMonster.pos { x := 1, y := 1 } = false
      decide)
  exact h.1

/-- C5 (amended): only the player click-to-move search snapshots the
blocked map before the external A* search and restores the snapshot
immediately after, leaving `blocked_tiles` identical; the monster-chase
search of `MonsterAI::run` performs no snapshot or restore — when the
path succeeds with more than one step it permanently clears the blocked
flag of the monster's old tile and sets the flag of the tile moved to. -/
theorem path_search_blocked_spec (astar : AStar) (m : Map)
    (player_fov : Option (List Position)) (ppos mouse : Position) (pathing : PlayerPathing)
    (pp : Position) (pe : Nat) (mon : MonsterRec)
    (hfar : pythagoras_lt_three_halves mon.pos pp = false)
    (hsee : pp ∈ mon.fov_content)
    (hsuccess : (astar (m.coordinates_to_idx mon.pos.x mon.pos.y)
        (m.coordinates_to_idx pp.x pp.y) m).success = true)
    (hsteps : 1 < (astar (m.coordinates_to_idx mon.pos.x mon.pos.y)
        (m.coordinates_to_idx pp.x pp.y) m).steps.length) :
    (handle_new_click_to_move astar m player_fov ppos mouse pathing).1.blocked_tiles =
      m.blocked_tiles
    ∧ (monster_ai_run astar pp pe ProcessingState.MonsterTurn [mon] m).1 =
        (m.set_tile_is_blocked mon.pos.x mon.pos.y false).set_tile_is_blocked
          ((m.set_tile_is_blocked mon.pos.x mon.pos.y false).idx_to_coordinates
            ((astar (m.coordinates_to_idx mon.pos.x mon.pos.y)
                (m.coordinates_to_idx pp.x pp.y) m).steps.getD 1 0)).1
          ((m.set_tile_is_blocked mon.pos.x mon.pos.y false).idx_to_coordinates
            ((astar (m.coordinates_to_idx mon.pos.x mon.pos.y)
                (m.coordinates_to_idx pp.x pp.y) m).steps.getD 1 0)).2
          true := by
  constructor
  · unfold handle_new_click_to_move
    cases player_fov with
    | none => rfl
    | some fov_content =>
      dsimp only
      split <;> rfl
  · have hrun : monster_ai_run astar pp pe ProcessingState.MonsterTurn [mon] m =
        monster_ai_aux astar pp pe [mon] m := by
      simp [monster_ai_run]
    rw [hrun]
    unfold monster_ai_aux
    rw [if_neg (by simp [hfar]), if_pos hsee]
    dsimp only
    rw [if_pos (by simp [hsuccess, hsteps])]
    rfl

/-- Map for the C5 counterexample: 5×5, with only the chasing monster's
standing tile (index 6, i.e. `(1, 1)`) blocked. -/
def chaseMap : Map :=
  { width := 5
    height := 5
    tiles := fun _ => TileType.FLOOR
    rooms := []
    explored_tiles := fun _ => false
    tiles_in_fov := fun _ => false
    blocked_tiles := fun i => decide (i = 6)
    tile_contents := fun _ => [] }

/-- Monster at `(1, 1)` that sees the player at `(3, 1)`. -/
def chaseMonster : MonsterRec :=
  { id := 9, fov_content := [{ x := 3, y := 1 }], fov_is_dirty := false,
    pos := { x := 1, y := 1 } }

/-- External search returning the straight two-step path `6 → 7 → 8`. -/
def chaseAstar : AStar := fun _ _ _ => { success := true, steps := [6, 7, 8] }

/-- Witness for `path_search_blocked_spec`: a concrete click-to-move
search on `chaseMap` leaves `blocked_tiles` identical. -/
theorem path_search_blocked_spec_witness :
    (handle_new_click_to_move chaseAstar chaseMap none { x := 0, y := 0 }
        { x := 0, y := 0 } { steps := [] }).1.blocked_tiles = chaseMap.blocked_tiles := by
  have h := path_search_blocked_spec chaseAstar chaseMap none { x := 0, y := 0 }
    { x := 0, y := 0 } { steps := [] } { x := 3, y := 1 } 0 chaseMonster
    (by decide) (by decide) rfl (by decide)
  exact h.1

/-- C5 counterexample: after a monster-chase path search the map's
`blocked_tiles` array differs from the one before the search — the
monster's old tile (index 6) is no longer blocked — refuting the claim
that every path search restores a saved snapshot of the blocked map. -/
theorem monster_chase_blocked_counterexample :
    (monster_ai_run chaseAstar { x := 3, y := 1 } 0 ProcessingState.MonsterTurn
        [chaseMonster] chaseMap).1.blocked_tiles 6 = false
    ∧ chaseMap.blocked_tiles 6 = true := by
  constructor <;> decide

/-! ## Structured game-log messages

The systems format log strings with `format!`; the embedding keeps the
message identity and its interpolated arguments as a structured value
instead of reproducing Rust string formatting. -/

/-- One `GameLog` entry, one constructor per `format!` call site. -/
inductive LogMessage where
  /-- `"{} was unable to break {}s defenses"` (MeleeCombatSystem). -/
  | unableToBreakDefenses (attacker defender : String)
  /-- `"{} hits {} for {} damage!"` (MeleeCombatSystem). -/
  | hitsForDamage (attacker defender : String) (damage : Int)
  /-- `"{} has died"` (DamageSystem::clean_up). -/
  | hasDied (name : String)
  /-- `"{} picked up {}."` (ItemCollectionSystem). -/
  | pickedUp (collector item : String)
  /-- `"{} drops {}"` (ItemDropSystem). -/
  | dropsItem (dropper item : String)
deriving DecidableEq

/-! ## Damage application (`DamageSystem::run`) and healing (`ItemUseSystem`) -/

/-- The component state seen by `DamageSystem::run`. -/
structure DamageWorld where
  entities : List Nat
  statistics : Nat → Option Statistics
  damage_counters : Nat → Option DamageCounter

/-- One join row of `DamageSystem::run`: an entity with both `Statistics`
and a `DamageCounter` loses the sum of the pending damage values. -/
def damage_step (w : DamageWorld) (e : Nat) : DamageWorld :=
  match w.statistics e, w.damage_counters e with
  | some statistic, some damage_counter =>
    { w with
      statistics := fun x =>
        if x = e then
          some { statistic with hp := statistic.hp - damage_counter.damage_values.sum }
        else
          w.statistics x }
  | _, _ => w

/-- `DamageSystem::run`: fold the damage application over all entities,
then clear every damage counter unconditionally. -/
def damage_system_run (w : DamageWorld) : DamageWorld :=
  let w1 := w.entities.foldl damage_step w
  { w1 with damage_counters := fun _ => none }

/-- The healing path of `ItemUseSystem::run`:
`hp = min(hp_max, hp + healing_amount)`. -/
def heal_statistics (statistic : Statistics) (healing_amount : Int) : Statistics :=
  { statistic with hp := min statistic.hp_max (statistic.hp + healing_amount) }

/-- `damage_step` preserves the counters and the `hp ≤ hp_max` invariant. -/
theorem damage_step_invariant (w : DamageWorld) (e : Nat)
    (hinv : ∀ x s, w.statistics x = some s → s.hp ≤ s.hp_max)
    (hnonneg : ∀ x dc, w.damage_counters x = some dc → ∀ v ∈ dc.damage_values, 0 ≤ v) :
    (damage_step w e).damage_counters = w.damage_counters
    ∧ ∀ x s, (damage_step w e).statistics x = some s → s.hp ≤ s.hp_max := by
  unfold damage_step
  cases hs : w.statistics e with
  | none => exact ⟨rfl, hinv⟩
  | some statistic =>
    cases hc : w.damage_counters e with
    | none => exact ⟨rfl, hinv⟩
    | some damage_counter =>
      refine ⟨rfl, ?_⟩
      intro x s hx
      dsimp at hx
      by_cases hxe : x = e
      · rw [if_pos hxe] at hx
        have hsum : 0 ≤ damage_counter.damage_values.sum :=
          List.sum_nonneg (hnonneg e damage_counter hc)
        have hold := hinv e statistic hs
        cases hx
        dsimp
        omega
      · rw [if_neg hxe] at hx
        exact hinv x s hx

/-- Folding `damage_step` preserves the `hp ≤ hp_max` invariant. -/
theorem damage_foldl_invariant :
    ∀ (l : List Nat) (w : DamageWorld),
      (∀ x s, w.statistics x = some s → s.hp ≤ s.hp_max) →
      (∀ x dc, w.damage_counters x = some dc → ∀ v ∈ dc.damage_values, 0 ≤ v) →
      ∀ x s, (l.foldl damage_step w).statistics x = some s → s.hp ≤ s.hp_max := by
  intro l
  induction l with
  | nil =>
    intro w hinv _ x s hx
    exact hinv x s hx
  | cons e rest ih =>
    intro w hinv hnonneg
    rw [List.foldl_cons]
    obtain ⟨hc, hs⟩ := damage_step_invariant w e hinv hnonneg
    exact ih (damage_step w e) hs (by rw [hc]; exact hnonneg)

/-- C7: if every entity satisfies `hp ≤ hp_max` and all pending damage
values are nonnegative, then after `DamageSystem::run` every entity still
satisfies `hp ≤ hp_max`; the healing path always caps `hp` at `hp_max`;
and healing `+8` on `hp = 5 / hp_max = 10` yields exactly `10`. -/
theorem hp_le_hp_max_spec (w : DamageWorld)
    (hinv : ∀ x s, w.statistics x = some s → s.hp ≤ s.hp_max)
    (hnonneg : ∀ x dc, w.damage_counters x = some dc → ∀ v ∈ dc.damage_values, 0 ≤ v) :
    (∀ x s, (damage_system_run w).statistics x = some s → s.hp ≤ s.hp_max)
    ∧ (∀ (s : Statistics) (amount : Int),
        (heal_statistics s amount).hp ≤ (heal_statistics s amount).hp_max)
    ∧ (heal_statistics { hp_max := 10, hp := 5, power := 0, defense := 0 } 8).hp = 10 := by
  refine ⟨?_, ?_, by decide⟩
  · intro x s hx
    exact damage_foldl_invariant w.entities w hinv hnonneg x s hx
  · intro s amount
    unfold heal_statistics
    dsimp
    omega

/-- A one-entity world for the C7 witness: hp 20/30 with pending damage
`[3, 4]`. -/
def damageWorldEx : DamageWorld :=
  { entities := [1]
    statistics := fun e =>
      if e = 1 then some { hp_max := 30, hp := 20, power := 5, defense := 2 } else none
    damage_counters := fun e =>
      if e = 1 then some { damage_values := [3, 4] } else none }

/-- Witness for `hp_le_hp_max_spec` on `damageWorldEx`: the damage pass
keeps `hp ≤ hp_max` for the concrete entity, and the concrete healing
fact holds. -/
theorem hp_le_hp_max_spec_witness :
    (damage_system_run damageWorldEx).statistics 1 =
      some { hp_max := 30, hp := 13, power := 5, defense := 2 }
    ∧ (heal_statistics { hp_max := 10, hp := 5, power := 0, defense := 0 } 8).hp = 10 := by
  have h := hp_le_hp_max_spec damageWorldEx
    (fun x s hx => by
      by_cases hx1 : x = 1
      · subst hx1
        have : damageWorldEx.statistics 1 =
            some { hp_max := 30, hp := 20, power := 5, defense := 2 } := rfl
        rw [this] at hx
        cases hx
        decide
      · have : damageWorldEx.statistics x = none := by
          unfold damageWorldEx
          dsimp
          rw [if_neg hx1]
        rw [this] at hx
        cases hx)
    (fun x dc hx v hv => by
      by_cases hx1 : x = 1
      · subst hx1
        have : damageWorldEx.damage_counters 1 = some { damage_values := [3, 4] } := rfl
        rw [this] at hx
        cases hx
        simp only [DamageCounter.mk.injEq] at hv ⊢
        have : v = 3 ∨ v = 4 := by simpa using hv
        omega
      · have : damageWorldEx.damage_counters x = none := by
          unfold damageWorldEx
          dsimp
          rw [if_neg hx1]
        rw [this] at hx
        cases hx)
  exact ⟨rfl, h.2.2⟩

/-! ## Melee combat (`MeleeCombatSystem::run`) -/

/-- The component state seen by `MeleeCombatSystem::run`. -/
structure MeleeWorld where
  entities : List Nat
  attackers : Nat → Option MeleeAttack
  names : Nat → Option Name
  statistics : Nat → Option Statistics
  damage_counters : Nat → Option DamageCounter
  game_log : List LogMessage

/-- `DamageCounter::add_damage_taken`: push onto an existing counter's
values, otherwise insert a fresh counter holding just the amount. -/
def add_damage_taken (store : Nat → Option DamageCounter) (target : Nat) (amount : Int) :
    Nat → Option DamageCounter :=
  match store target with
  | some damage_counter =>
    fun e =>
      if e = target then
        some { damage_values := damage_counter.damage_values ++ [amount] }
      else
        store e
  | none =>
    fun e =>
      if e = target then some { damage_values := [amount] } else store e

/-- The pending damage values of an entity in a counter store. -/
def storeValues (store : Nat → Option DamageCounter) (t : Nat) : List Int :=
  match store t with
  | some damage_counter => damage_counter.damage_values
  | none => []

/-- The pending damage values of an entity in a `MeleeWorld`. -/
def counterValues (w : MeleeWorld) (t : Nat) : List Int :=
  storeValues w.damage_counters t

/-- One join row of `MeleeCombatSystem::run`: an attacker with
`MeleeAttack`, `Name` and `Statistics` and positive hp deals
`max(0, power - defense)` to its target; the unchecked `unwrap`s on the
target's statistics and name are panics (`none`). -/
def melee_step (w : MeleeWorld) (e : Nat) : Option MeleeWorld :=
  match w.attackers e, w.names e, w.statistics e with
  | some attacker, some name, some statistic =>
    if statistic.hp > 0 then
      match w.statistics attacker.target with
      | none => none
      | some target_statistics =>
        if target_statistics.hp > 0 then
          match w.names attacker.target with
          | none => none
          | some target_name =>
            let damage := max 0 (statistic.power - target_statistics.defense)
            if damage = 0 then
              some { w with
                game_log := w.game_log ++
                  [LogMessage.unableToBreakDefenses name.name target_name.name] }
            else
              some { w with
                game_log := w.game_log ++
                  [LogMessage.hitsForDamage name.name target_name.name damage],
                damage_counters := add_damage_taken w.damage_counters attacker.target damage }
        else
          some w
    else
      some w
  | _, _, _ => some w

/-- The join loop of `MeleeCombatSystem::run` over the entity list. -/
def melee_run_aux : List Nat → MeleeWorld → Option MeleeWorld
  | [], w => some w
  | e :: rest, w =>
    match melee_step w e with
    | none => none
    | some w1 => melee_run_aux rest w1

/-- `MeleeCombatSystem::run`: one pass over all entities, then
`attackers.clear()`. -/
def melee_combat_run (w : MeleeWorld) : Option MeleeWorld :=
  match melee_run_aux w.entities w with
  | none => none
  | some w1 => some { w1 with attackers := fun _ => none }

/-- The no-effect branch of `melee_step`: zero damage only logs. -/
theorem melee_step_noeffect (w : MeleeWorld) (e : Nat) (attacker : MeleeAttack)
    (name : Name) (statistic ts : Statistics) (tn : Name)
    (ha : w.attackers e = some attacker) (hn : w.names e = some name)
    (hs : w.statistics e = some statistic) (hhp : 0 < statistic.hp)
    (hts : w.statistics attacker.target = some ts) (hthp : 0 < ts.hp)
    (htn : w.names attacker.target = some tn)
    (hd : max 0 (statistic.power - ts.defense) = 0) :
    melee_step w e = some { w with
      game_log := w.game_log ++ [LogMessage.unableToBreakDefenses name.name tn.name] } := by
  unfold melee_step
  rw [ha, hn, hs]
  dsimp only
  rw [if_pos hhp, hts]
  dsimp only
  rw [if_pos hthp, htn]
  dsimp only
  rw [if_pos hd]

/-- The hit branch of `melee_step`: positive damage logs and pushes the
damage onto the target's counter. -/
theorem melee_step_hit (w : MeleeWorld) (e : Nat) (attacker : MeleeAttack)
    (name : Name) (statistic ts : Statistics) (tn : Name)
    (ha : w.attackers e = some attacker) (hn : w.names e = some name)
    (hs : w.statistics e = some statistic) (hhp : 0 < statistic.hp)
    (hts : w.statistics attacker.target = some ts) (hthp : 0 < ts.hp)
    (htn : w.names attacker.target = some tn)
    (hd : max 0 (statistic.power - ts.defense) ≠ 0) :
    melee_step w e = some { w with
      game_log := w.game_log ++
        [LogMessage.hitsForDamage name.name tn.name (max 0 (statistic.power - ts.defense))],
      damage_counters := add_damage_taken w.damage_counters attacker.target
        (max 0 (statistic.power - ts.defense)) } := by
  unfold melee_step
  rw [ha, hn, hs]
  dsimp only
  rw [if_pos hhp, hts]
  dsimp only
  rw [if_pos hthp, htn]
  dsimp only
  rw [if_neg hd]

/-- `melee_step` never changes entities, attackers, names or statistics. -/
theorem melee_step_preserves (w w1 : MeleeWorld) (x : Nat)
    (h : melee_step w x = some w1) :
    w1.entities = w.entities ∧ w1.attackers = w.attackers
    ∧ w1.names = w.names ∧ w1.statistics = w.statistics := by
  unfold melee_step at h
  cases hA : w.attackers x with
  | none =>
    simp only [hA] at h
    cases h
    exact ⟨rfl, rfl, rfl, rfl⟩
  | some attacker =>
    simp only [hA] at h
    cases hN : w.names x with
    | none =>
      simp only [hN] at h
      cases h
      exact ⟨rfl, rfl, rfl, rfl⟩
    | some name =>
      simp only [hN] at h
      cases hS : w.statistics x with
      | none =>
        simp only [hS] at h
        cases h
        exact ⟨rfl, rfl, rfl, rfl⟩
      | some statistic =>
        simp only [hS] at h
        by_cases hhp : statistic.hp > 0
        · rw [if_pos hhp] at h
          cases hTS : w.statistics attacker.target with
          | none =>
            rw [hTS] at h
            exact Option.noConfusion h
          | some ts =>
            rw [hTS] at h
            dsimp only at h
            by_cases hthp : ts.hp > 0
            · rw [if_pos hthp] at h
              cases hTN : w.names attacker.target with
              | none =>
                rw [hTN] at h
                exact Option.noConfusion h
              | some tn =>
                rw [hTN] at h
                dsimp only at h
                by_cases hd : max 0 (statistic.power - ts.defense) = 0
                · rw [if_pos hd] at h
                  cases h
                  exact ⟨rfl, rfl, rfl, rfl⟩
                · rw [if_neg hd] at h
                  cases h
                  exact ⟨rfl, rfl, rfl, rfl⟩
            · rw [if_neg hthp] at h
              cases h
              exact ⟨rfl, rfl, rfl, rfl⟩
        · rw [if_neg hhp] at h
          cases h
          exact ⟨rfl, rfl, rfl, rfl⟩

/-- The new amount is present after `add_damage_taken`. -/
theorem add_damage_taken_mem (store : Nat → Option DamageCounter) (target : Nat)
    (amount : Int) :
    amount ∈ storeValues (add_damage_taken store target amount) target := by
  unfold add_damage_taken storeValues
  cases hs : store target with
  | none => simp
  | some dc => simp

/-- `add_damage_taken` only appends: existing values survive. -/
theorem add_damage_taken_mono (store : Nat → Option DamageCounter) (target t : Nat)
    (amount v : Int) (hv : v ∈ storeValues store t) :
    v ∈ storeValues (add_damage_taken store target amount) t := by
  unfold add_damage_taken storeValues
  unfold storeValues at hv
  by_cases ht : t = target
  · subst ht
    cases hs : store t with
    | none =>
      rw [hs] at hv
      simp at hv
    | some dc =>
      rw [hs] at hv
      simp
      exact Or.inl hv
  · cases hs : store target with
    | none =>
      dsimp only
      rw [if_neg ht]
      exact hv
    | some dc =>
      dsimp only
      rw [if_neg ht]
      exact hv

/-- `melee_step` never removes pending damage values. -/
theorem melee_step_counter_mono (w w1 : MeleeWorld) (x t : Nat) (v : Int)
    (h : melee_step w x = some w1) (hv : v ∈ counterValues w t) :
    v ∈ counterValues w1 t := by
  unfold melee_step at h
  cases hA : w.attackers x with
  | none =>
    simp only [hA] at h
    cases h
    exact hv
  | some attacker =>
    simp only [hA] at h
    cases hN : w.names x with
    | none =>
      simp only [hN] at h
      cases h
      exact hv
    | some name =>
      simp only [hN] at h
      cases hS : w.statistics x with
      | none =>
        simp only [hS] at h
        cases h
        exact hv
      | some statistic =>
        simp only [hS] at h
        by_cases hhp : statistic.hp > 0
        · rw [if_pos hhp] at h
          cases hTS : w.statistics attacker.target with
          | none =>
            rw [hTS] at h
            exact Option.noConfusion h
          | some ts =>
            rw [hTS] at h
            dsimp only at h
            by_cases hthp : ts.hp > 0
            · rw [if_pos hthp] at h
              cases hTN : w.names attacker.target with
              | none =>
                rw [hTN] at h
                exact Option.noConfusion h
              | some tn =>
                rw [hTN] at h
                dsimp only at h
                by_cases hd : max 0 (statistic.power - ts.defense) = 0
                · rw [if_pos hd] at h
                  cases h
                  exact hv
                · rw [if_neg hd] at h
                  cases h
                  exact add_damage_taken_mono w.damage_counters attacker.target t _ v hv
            · rw [if_neg hthp] at h
              cases h
              exact hv
        · rw [if_neg hhp] at h
          cases h
          exact hv

/-- The join loop never removes pending damage values. -/
theorem melee_aux_counter_mono :
    ∀ (l : List Nat) (w w1 : MeleeWorld) (t : Nat) (v : Int),
      melee_run_aux l w = some w1 → v ∈ counterValues w t → v ∈ counterValues w1 t := by
  intro l
  induction l with
  | nil =>
    intro w w1 t v h hv
    cases h
    exact hv
  | cons x rest ih =>
    intro w w1 t v h hv
    unfold melee_run_aux at h
    cases hstep : melee_step w x with
    | none =>
      rw [hstep] at h
      cases h
    | some wx =>
      rw [hstep] at h
      exact ih wx w1 t v h (melee_step_counter_mono w wx x t v hstep hv)

/-- An attacker processed somewhere in the join loop deposits its damage
on the target, and the deposit survives to the end of the loop. -/
theorem melee_aux_mem (e : Nat) (attacker : MeleeAttack) (name : Name)
    (statistic ts : Statistics) (tn : Name) :
    ∀ (l : List Nat) (w w1 : MeleeWorld),
      e ∈ l →
      w.attackers e = some attacker → w.names e = some name →
      w.statistics e = some statistic → 0 < statistic.hp →
      w.statistics attacker.target = some ts → 0 < ts.hp →
      w.names attacker.target = some tn →
      max 0 (statistic.power - ts.defense) ≠ 0 →
      melee_run_aux l w = some w1 →
      max 0 (statistic.power - ts.defense) ∈ counterValues w1 attacker.target := by
  intro l
  induction l with
  | nil =>
    intro w w1 he
    simp at he
  | cons x rest ih =>
    intro w w1 he ha hn hs hhp hts hthp htn hd hrun
    unfold melee_run_aux at hrun
    cases hstep : melee_step w x with
    | none =>
      rw [hstep] at hrun
      cases hrun
    | some wx =>
      rw [hstep] at hrun
      by_cases hex : x = e
      · subst hex
        have hstep_eq := melee_step_hit w x attacker name statistic ts tn
          ha hn hs hhp hts hthp htn hd
        rw [hstep_eq] at hstep
        cases hstep
        exact melee_aux_counter_mono rest _ w1 attacker.target _ hrun
          (add_damage_taken_mem w.damage_counters attacker.target _)
      · have he' : e ∈ rest := by
          rcases List.mem_cons.mp he with h1 | h1
          · exact absurd h1.symm hex
          · exact h1
        obtain ⟨hent, hatt, hnm, hst⟩ := melee_step_preserves w wx x hstep
        exact ih wx w1 he' (by rw [hatt]; exact ha) (by rw [hnm]; exact hn)
          (by rw [hst]; exact hs) hhp (by rw [hst]; exact hts) hthp
          (by rw [hnm]; exact htn) hd hrun

/-- C6: in one melee-resolution pass, an attacker with positive hp whose
target also has positive hp deals `max(0, power − defense)`: zero damage
only appends a no-effect log message and leaves every counter untouched,
positive damage appends a hit message and pushes the damage onto the
target's `DamageCounter` (the value is present in the target's counter
after the pass); after the pass no entity holds a `MeleeAttack` intent. -/
theorem melee_combat_spec (w : MeleeWorld) (e : Nat) (attacker : MeleeAttack)
    (name : Name) (statistic ts : Statistics) (tn : Name) (w' : MeleeWorld)
    (he : e ∈ w.entities)
    (ha : w.attackers e = some attacker) (hn : w.names e = some name)
    (hs : w.statistics e = some statistic) (hhp : 0 < statistic.hp)
    (hts : w.statistics attacker.target = some ts) (hthp : 0 < ts.hp)
    (htn : w.names attacker.target = some tn)
    (hrun : melee_combat_run w = some w') :
    (max 0 (statistic.power - ts.defense) = 0 →
      melee_step w e = some { w with
        game_log := w.game_log ++ [LogMessage.unableToBreakDefenses name.name tn.name] })
    ∧ (max 0 (statistic.power - ts.defense) ≠ 0 →
        melee_step w e = some { w with
          game_log := w.game_log ++
            [LogMessage.hitsForDamage name.name tn.name
              (max 0 (statistic.power - ts.defense))],
          damage_counters := add_damage_taken w.damage_counters attacker.target
            (max 0 (statistic.power - ts.defense)) }
        ∧ max 0 (statistic.power - ts.defense) ∈ counterValues w' attacker.target)
    ∧ (∀ x, w'.attackers x = none) := by
  unfold melee_combat_run at hrun
  cases haux : melee_run_aux w.entities w with
  | none =>
    rw [haux] at hrun
    cases hrun
  | some w1 =>
    rw [haux] at hrun
    cases hrun
    refine ⟨?_, ?_, ?_⟩
    · intro hd0
      exact melee_step_noeffect w e attacker name statistic ts tn
        ha hn hs hhp hts hthp htn hd0
    · intro hd
      refine ⟨melee_step_hit w e attacker name statistic ts tn
        ha hn hs hhp hts hthp htn hd, ?_⟩
      have hm := melee_aux_mem e attacker name statistic ts tn w.entities w w1
        he ha hn hs hhp hts hthp htn hd haux
      exact hm
    · intro x
      rfl

/-- A two-entity world for the C6 witness: entity 1 attacks entity 2 with
power 5 against defense 2. -/
def meleeWorldEx : MeleeWorld :=
  { entities := [1, 2]
    attackers := fun e => if e = 1 then some { target := 2 } else none
    names := fun e =>
      if e = 1 then some { name := "Attacker" }
      else if e = 2 then some { name := "Defender" } else none
    statistics := fun e =>
      if e = 1 then some { hp_max := 30, hp := 30, power := 5, defense := 2 }
      else if e = 2 then some { hp_max := 10, hp := 10, power := 2, defense := 2 } else none
    damage_counters := fun _ => none
    game_log := [] }

/-- The world after the melee pass on `meleeWorldEx`. -/
def meleeWorldEx' : MeleeWorld :=
  { meleeWorldEx with
    game_log := [LogMessage.hitsForDamage "Attacker" "Defender" 3]
    damage_counters := add_damage_taken meleeWorldEx.damage_counters 2 3
    attackers := fun _ => none }

/-- Witness for `melee_combat_spec`: the concrete pass deposits damage 3 on
the defender's counter and clears all attack intents. -/
theorem melee_combat_spec_witness :
    (3 : Int) ∈ counterValues meleeWorldEx' 2 ∧ meleeWorldEx'.attackers 1 = none := by
  have hrun : melee_combat_run meleeWorldEx = some meleeWorldEx' := rfl
  have h := melee_combat_spec meleeWorldEx 1 { target := 2 } { name := "Attacker" }
    { hp_max := 30, hp := 30, power := 5, defense := 2 }
    { hp_max := 10, hp := 10, power := 2, defense := 2 } { name := "Defender" }
    meleeWorldEx' (by decide) rfl rfl rfl (by decide) rfl (by decide) rfl hrun
  exact ⟨(h.2.1 (by decide)).2, h.2.2 1⟩

/-! ## Item pickup and drop (`ItemCollectionSystem`, `ItemDropSystem`) -/

/-- The component state seen by the item systems. -/
structure ItemWorld where
  entities : List Nat
  names : Nat → Option Name
  pickups : Nat → Option PickupItem
  drops : Nat → Option DropItem
  positions : Nat → Option Position
  loot : Nat → Option Loot
  game_log : List LogMessage

/-- One row of the `pickups.join()` loop of `ItemCollectionSystem::run`:
remove the item's `Position`, attach `Loot { owner: collector }`, and log
(the `unwrap`s on the two names are panics). -/
def item_collection_step (w : ItemWorld) (e : Nat) : Option ItemWorld :=
  match w.pickups e with
  | none => some w
  | some pickup =>
    match w.names pickup.collector, w.names pickup.item with
    | some collector_name, some item_name =>
      some { w with
        positions := fun x => if x = pickup.item then none else w.positions x,
        loot := fun x =>
          if x = pickup.item then some { owner := pickup.collector } else w.loot x,
        game_log := w.game_log ++
          [LogMessage.pickedUp collector_name.name item_name.name] }
    | _, _ => none

/-- The `ItemCollectionSystem` loop over the entity list. -/
def item_collection_aux : List Nat → ItemWorld → Option ItemWorld
  | [], w => some w
  | e :: rest, w =>
    match item_collection_step w e with
    | none => none
    | some w1 => item_collection_aux rest w1

/-- `ItemCollectionSystem::run`: one pass, then `pickups.clear()`. -/
def item_collection_run (w : ItemWorld) : Option ItemWorld :=
  match item_collection_aux w.entities w with
  | none => none
  | some w1 => some { w1 with pickups := fun _ => none }

/-- One row of the `(&entities, &drops)` join of `ItemDropSystem::run`:
read the dropper's `Position` (`unwrap` panic when absent), give the item
a fresh copy of it, remove `Loot`, and log. -/
def item_drop_step (w : ItemWorld) (e : Nat) : Option ItemWorld :=
  match w.drops e with
  | none => some w
  | some drop =>
    match w.positions e with
    | none => none
    | some entity_position =>
      match w.names e, w.names drop.item with
      | some entity_name, some item_name =>
        some { w with
          positions := fun x =>
            if x = drop.item then
              some { x := entity_position.x, y := entity_position.y }
            else
              w.positions x,
          loot := fun x => if x = drop.item then none else w.loot x,
          game_log := w.game_log ++
            [LogMessage.dropsItem entity_name.name item_name.name] }
      | _, _ => none

/-- The `ItemDropSystem` loop over the entity list. -/
def item_drop_aux : List Nat → ItemWorld → Option ItemWorld
  | [], w => some w
  | e :: rest, w =>
    match item_drop_step w e with
    | none => none
    | some w1 => item_drop_aux rest w1

/-- `ItemDropSystem::run`: one pass, then `drops.clear()`. -/
def item_drop_run (w : ItemWorld) : Option ItemWorld :=
  match item_drop_aux w.entities w with
  | none => none
  | some w1 => some { w1 with drops := fun _ => none }

/-- Pickup followed by a drop issued by `dropper`: resolve the pickup
pass, then (as `Item::drop_item` does for the selected inventory entry)
register the single `DropItem { item }` intent on the dropper and resolve
the drop pass. -/
def pickup_then_drop (w : ItemWorld) (dropper item : Nat) : Option ItemWorld :=
  match item_collection_run w with
  | none => none
  | some w1 =>
    item_drop_run { w1 with
      drops := fun x => if x = dropper then some { item := item } else none }

/-- An entity without a pickup intent is skipped by the collection pass. -/
theorem item_collection_step_skip (w : ItemWorld) (x : Nat) (h : w.pickups x = none) :
    item_collection_step w x = some w := by
  simp only [item_collection_step, h]

/-- `item_collection_step` never changes names, pickups or entities. -/
theorem item_collection_step_preserves (w w1 : ItemWorld) (x : Nat)
    (h : item_collection_step w x = some w1) :
    w1.names = w.names ∧ w1.pickups = w.pickups ∧ w1.entities = w.entities := by
  unfold item_collection_step at h
  cases hp : w.pickups x with
  | none =>
    simp only [hp] at h
    cases h
    exact ⟨rfl, rfl, rfl⟩
  | some pickup =>
    simp only [hp] at h
    cases hcn : w.names pickup.collector with
    | none =>
      rw [hcn] at h
      exact Option.noConfusion h
    | some collector_name =>
      rw [hcn] at h
      cases hin : w.names pickup.item with
      | none =>
        rw [hin] at h
        exact Option.noConfusion h
      | some item_name =>
        rw [hin] at h
        dsimp only at h
        cases h
        exact ⟨rfl, rfl, rfl⟩

/-- Effect of one collection step on the round-trip item and collector. -/
theorem item_collection_step_effects (A it : Nat) (w w1 : ItemWorld) (x : Nat)
    (hpk : w.pickups A = some { collector := A, item := it })
    (honly : ∀ y, y ≠ A → w.pickups y = none)
    (hne : it ≠ A)
    (h : item_collection_step w x = some w1) :
    w1.positions A = w.positions A
    ∧ (x = A → w1.positions it = none ∧ w1.loot it = some { owner := A })
    ∧ (x ≠ A → w1.positions it = w.positions it ∧ w1.loot it = w.loot it) := by
  by_cases hx : x = A
  · subst hx
    unfold item_collection_step at h
    rw [hpk] at h
    dsimp only at h
    cases hcn : w.names x with
    | none =>
      rw [hcn] at h
      exact Option.noConfusion h
    | some collector_name =>
      rw [hcn] at h
      cases hin : w.names it with
      | none =>
        rw [hin] at h
        exact Option.noConfusion h
      | some item_name =>
        rw [hin] at h
        dsimp only at h
        cases h
        refine ⟨?_, ?_, ?_⟩
        · dsimp only
          rw [if_neg (fun hAit => hne hAit.symm)]
        · intro _
          exact ⟨by simp, by simp⟩
        · intro hxx
          exact absurd rfl hxx
  · rw [item_collection_step_skip w x (honly x hx)] at h
    cases h
    exact ⟨rfl, fun hxe => absurd hxe hx, fun _ => ⟨rfl, rfl⟩⟩

/-- The collection pass removes the picked item's `Position`, attaches
`Loot` owned by the collector, and leaves the collector's own `Position`
untouched. -/
theorem item_collection_aux_effects (A it : Nat) :
    ∀ (l : List Nat) (w w1 : ItemWorld),
      w.pickups A = some { collector := A, item := it } →
      (∀ y, y ≠ A → w.pickups y = none) →
      it ≠ A →
      item_collection_aux l w = some w1 →
      w1.positions A = w.positions A
      ∧ (A ∈ l → w1.positions it = none ∧ w1.loot it = some { owner := A })
      ∧ ((w.positions it = none ∧ w.loot it = some { owner := A }) →
          (w1.positions it = none ∧ w1.loot it = some { owner := A }))
      ∧ w1.names = w.names ∧ w1.entities = w.entities := by
  intro l
  induction l with
  | nil =>
    intro w w1 _ _ _ h
    cases h
    exact ⟨rfl, by simp, id, rfl, rfl⟩
  | cons x rest ih =>
    intro w w1 hpk honly hne h
    unfold item_collection_aux at h
    cases hstep : item_collection_step w x with
    | none =>
      rw [hstep] at h
      cases h
    | some wx =>
      rw [hstep] at h
      obtain ⟨hnm, hpks, hent⟩ := item_collection_step_preserves w wx x hstep
      obtain ⟨hposA1, hset1, hkeep1⟩ :=
        item_collection_step_effects A it w wx x hpk honly hne hstep
      obtain ⟨hposA2, hset2, hkeep2, hnm2, hent2⟩ := ih wx w1
        (by rw [hpks]; exact hpk) (fun y hy => by rw [hpks]; exact honly y hy) hne h
      refine ⟨hposA2.trans hposA1, ?_, ?_, hnm2.trans hnm, hent2.trans hent⟩
      · intro hmem
        by_cases hx : x = A
        · exact hkeep2 (hset1 hx)
        · rcases List.mem_cons.mp hmem with h1 | h1
          · exact absurd h1.symm hx
          · exact hset2 h1
      · intro hP
        apply hkeep2
        by_cases hx : x = A
        · exact hset1 hx
        · obtain ⟨e1, e2⟩ := hkeep1 hx
          exact ⟨by rw [e1]; exact hP.1, by rw [e2]; exact hP.2⟩

/-- An entity without a drop intent is skipped by the drop pass. -/
theorem item_drop_step_skip (w : ItemWorld) (x : Nat) (h : w.drops x = none) :
    item_drop_step w x = some w := by
  simp only [item_drop_step, h]

/-- `item_drop_step` never changes names, drops or entities. -/
theorem item_drop_step_preserves (w w1 : ItemWorld) (x : Nat)
    (h : item_drop_step w x = some w1) :
    w1.names = w.names ∧ w1.drops = w.drops ∧ w1.entities = w.entities := by
  unfold item_drop_step at h
  cases hd : w.drops x with
  | none =>
    simp only [hd] at h
    cases h
    exact ⟨rfl, rfl, rfl⟩
  | some drop =>
    simp only [hd] at h
    cases hpos : w.positions x with
    | none =>
      rw [hpos] at h
      exact Option.noConfusion h
    | some entity_position =>
      rw [hpos] at h
      dsimp only at h
      cases hen : w.names x with
      | none =>
        rw [hen] at h
        exact Option.noConfusion h
      | some entity_name =>
        rw [hen] at h
        cases hin : w.names drop.item with
        | none =>
          rw [hin] at h
          exact Option.noConfusion h
        | some item_name =>
          rw [hin] at h
          dsimp only at h
          cases h
          exact ⟨rfl, rfl, rfl⟩

/-- Effect of one drop step on the round-trip item and dropper. -/
theorem item_drop_step_effects (A it : Nat) (pA : Position) (w w1 : ItemWorld) (x : Nat)
    (hdr : w.drops A = some { item := it })
    (honly : ∀ y, y ≠ A → w.drops y = none)
    (hne : it ≠ A)
    (hposA : w.positions A = some pA)
    (h : item_drop_step w x = some w1) :
    w1.positions A = w.positions A
    ∧ (x = A → w1.positions it = some pA ∧ w1.loot it = none)
    ∧ (x ≠ A → w1.positions it = w.positions it ∧ w1.loot it = w.loot it) := by
  by_cases hx : x = A
  · subst hx
    unfold item_drop_step at h
    rw [hdr] at h
    dsimp only at h
    rw [hposA] at h
    dsimp only at h
    cases hen : w.names x with
    | none =>
      rw [hen] at h
      exact Option.noConfusion h
    | some entity_name =>
      rw [hen] at h
      cases hin : w.names it with
      | none =>
        rw [hin] at h
        exact Option.noConfusion h
      | some item_name =>
        rw [hin] at h
        dsimp only at h
        cases h
        refine ⟨?_, ?_, ?_⟩
        · dsimp only
          rw [if_neg (fun hAit => hne hAit.symm)]
        · intro _
          refine ⟨?_, by simp⟩
          dsimp only
          rw [if_pos rfl]
        · intro hxx
          exact absurd rfl hxx
  · rw [item_drop_step_skip w x (honly x hx)] at h
    cases h
    exact ⟨rfl, fun hxe => absurd hxe hx, fun _ => ⟨rfl, rfl⟩⟩

/-- The drop pass restores to the item a `Position` equal to the
dropper's current position and removes `Loot`. -/
theorem item_drop_aux_effects (A it : Nat) (pA : Position) :
    ∀ (l : List Nat) (w w1 : ItemWorld),
      w.drops A = some { item := it } →
      (∀ y, y ≠ A → w.drops y = none) →
      it ≠ A →
      w.positions A = some pA →
      item_drop_aux l w = some w1 →
      w1.positions A = w.positions A
      ∧ (A ∈ l → w1.positions it = some pA ∧ w1.loot it = none)
      ∧ ((w.positions it = some pA ∧ w.loot it = none) →
          (w1.positions it = some pA ∧ w1.loot it = none)) := by
  intro l
  induction l with
  | nil =>
    intro w w1 _ _ _ _ h
    cases h
    exact ⟨rfl, by simp, id⟩
  | cons x rest ih =>
    intro w w1 hdr honly hne hposA h
    unfold item_drop_aux at h
    cases hstep : item_drop_step w x with
    | none =>
      rw [hstep] at h
      cases h
    | some wx =>
      rw [hstep] at h
      obtain ⟨hnm, hdrs, hent⟩ := item_drop_step_preserves w wx x hstep
      obtain ⟨hposA1, hset1, hkeep1⟩ :=
        item_drop_step_effects A it pA w wx x hdr honly hne hposA hstep
      obtain ⟨hposA2, hset2, hkeep2⟩ := ih wx w1
        (by rw [hdrs]; exact hdr) (fun y hy => by rw [hdrs]; exact honly y hy) hne
        (by rw [hposA1]; exact hposA) h
      refine ⟨hposA2.trans hposA1, ?_, ?_⟩
      · intro hmem
        by_cases hx : x = A
        · exact hkeep2 (hset1 hx)
        · rcases List.mem_cons.mp hmem with h1 | h1
          · exact absurd h1.symm hx
          · exact hset2 h1
      · intro hP
        apply hkeep2
        by_cases hx : x = A
        · exact hset1 hx
        · obtain ⟨e1, e2⟩ := hkeep1 hx
          exact ⟨by rw [e1]; exact hP.1, by rw [e2]; exact hP.2⟩

/-- Effects of `ItemCollectionSystem::run` on the round-trip item. -/
theorem item_collection_run_effects (A it : Nat) (w w1 : ItemWorld)
    (hA : A ∈ w.entities)
    (hpk : w.pickups A = some { collector := A, item := it })
    (honly : ∀ x, x ≠ A → w.pickups x = none)
    (hne : it ≠ A)
    (h : item_collection_run w = some w1) :
    w1.positions it = none ∧ w1.loot it = some { owner := A }
    ∧ w1.positions A = w.positions A ∧ (∀ x, w1.pickups x = none)
    ∧ w1.names = w.names ∧ w1.entities = w.entities := by
  unfold item_collection_run at h
  cases haux : item_collection_aux w.entities w with
  | none =>
    rw [haux] at h
    cases h
  | some wa =>
    rw [haux] at h
    cases h
    obtain ⟨hposA1, hset, _, hnm, hent⟩ :=
      item_collection_aux_effects A it w.entities w wa hpk honly hne haux
    obtain ⟨h1, h2⟩ := hset hA
    exact ⟨h1, h2, hposA1, fun x => rfl, hnm, hent⟩

/-- Effects of `ItemDropSystem::run` on the round-trip item. -/
theorem item_drop_run_effects (A it : Nat) (pA : Position) (w w2 : ItemWorld)
    (hA : A ∈ w.entities)
    (hdr : w.drops A = some { item := it })
    (honly : ∀ x, x ≠ A → w.drops x = none)
    (hne : it ≠ A)
    (hposA : w.positions A = some pA)
    (h : item_drop_run w = some w2) :
    w2.positions it = some pA ∧ w2.loot it = none ∧ ∀ x, w2.drops x = none := by
  unfold item_drop_run at h
  cases haux : item_drop_aux w.entities w with
  | none =>
    rw [haux] at h
    cases h
  | some wb =>
    rw [haux] at h
    cases h
    obtain ⟨_, hset, _⟩ :=
      item_drop_aux_effects A it pA w.entities w wb hdr honly hne hposA haux
    obtain ⟨h1, h2⟩ := hset hA
    exact ⟨h1, h2, fun x => rfl⟩

/-- C8: resolving `PickupItem { collector: A, item }` removes the item's
`Position` and attaches `Loot { owner: A }` (clearing all pickup intents);
a subsequent `DropItem { item }` issued by A restores to the item a
`Position` equal to A's current position and removes `Loot` (clearing all
drop intents) — so for a collector that has not moved, the item ends at
its owner's position. -/
theorem pickup_drop_round_trip (w : ItemWorld) (A it : Nat) (nA nI : Name) (pA : Position)
    (hA : A ∈ w.entities)
    (hpk : w.pickups A = some { collector := A, item := it })
    (honly : ∀ x, x ≠ A → w.pickups x = none)
    (hne : it ≠ A)
    (hnA : w.names A = some nA) (hnI : w.names it = some nI)
    (hposA : w.positions A = some pA) :
    (∀ w1, item_collection_run w = some w1 →
      w1.positions it = none ∧ w1.loot it = some { owner := A }
      ∧ w1.positions A = some pA ∧ ∀ x, w1.pickups x = none)
    ∧ (∀ w2, pickup_then_drop w A it = some w2 →
        w2.positions it = some pA ∧ w2.loot it = none ∧ ∀ x, w2.drops x = none) := by
  constructor
  · intro w1 h
    obtain ⟨h1, h2, h3, h4, _, _⟩ :=
      item_collection_run_effects A it w w1 hA hpk honly hne h
    exact ⟨h1, h2, by rw [h3]; exact hposA, h4⟩
  · intro w2 h
    unfold pickup_then_drop at h
    cases hcol : item_collection_run w with
    | none =>
      rw [hcol] at h
      cases h
    | some w1 =>
      rw [hcol] at h
      obtain ⟨hit1, hloot1, hposA1, _, hnm, hent⟩ :=
        item_collection_run_effects A it w w1 hA hpk honly hne hcol
      refine item_drop_run_effects A it pA _ w2 ?_ ?_ ?_ hne ?_ h
      · show A ∈ w1.entities
        rw [hent]
        exact hA
      · show (if A = A then some ({ item := it } : DropItem) else none) = some { item := it }
        rw [if_pos rfl]
      · intro x hx
        show (if x = A then some ({ item := it } : DropItem) else none) = none
        rw [if_neg hx]
      · show w1.positions A = some pA
        rw [hposA1]
        exact hposA

/-- A world for the C8 witness: entity 1 at `(5, 5)` picks up item 2. -/
def itemWorldEx : ItemWorld :=
  { entities := [1, 2]
    names := fun e =>
      if e = 1 then some { name := "Rouge" }
      else if e = 2 then some { name := "Health Potion" } else none
    pickups := fun e => if e = 1 then some { collector := 1, item := 2 } else none
    drops := fun _ => none
    positions := fun e =>
      if e = 1 then some { x := 5, y := 5 }
      else if e = 2 then some { x := 5, y := 5 } else none
    loot := fun _ => none
    game_log := [] }

/-- Witness for `pickup_drop_round_trip`: the concrete round trip leaves
item 2 at the collector's position `(5, 5)` with no `Loot`. -/
theorem pickup_drop_round_trip_witness :
    (pickup_then_drop itemWorldEx 1 2).map
      (fun w2 => (w2.positions 2, w2.loot 2)) =
      some (some { x := 5, y := 5 }, none) := by
  cases hrun : pickup_then_drop itemWorldEx 1 2 with
  | none =>
    have hs : (pickup_then_drop itemWorldEx 1 2).isSome = true := rfl
    rw [hrun] at hs
    exact Bool.noConfusion hs
  | some w2 =>
    have h := (pickup_drop_round_trip itemWorldEx 1 2 { name := "Rouge" }
      { name := "Health Potion" } { x := 5, y := 5 } (by decide) rfl
      (fun x hx => by
        show (if x = 1 then some ({ collector := 1, item := 2 } : PickupItem) else none) = none
        rw [if_neg hx])
      (by decide) rfl rfl rfl).2 w2 hrun
    show some (w2.positions 2, w2.loot 2) = some (some { x := 5, y := 5 }, none)
    rw [h.1, h.2.1]

/-! ## Death cleanup (`DamageSystem::clean_up`) and dialogs (`dialog.rs`) -/

/-- The dialog-option keys used by the embedded dialogs. -/
inductive KeyCode where
  | Q
  | Escape
  | other
deriving DecidableEq

/-- A `DialogOption`: its callback is embedded by its observable outcome —
whether it quits the game and which `ProcessingState` it returns. -/
structure DialogOption where
  description : String
  key : KeyCode
  quits : Bool
  next_state : ProcessingState
deriving DecidableEq

/-- A registered `DialogInterface` (the resource slot holds at most one;
`register_dialog` replaces any existing one). -/
structure DialogInterface where
  title : String
  message : Option String
  options : List DialogOption
  cancelable : Bool
deriving DecidableEq

/-- The terminal death dialog registered by `DamageSystem::clean_up`:
non-cancelable, single option that quits and returns `Internal`. -/
def death_dialog : DialogInterface :=
  { title := "An untimely end"
    message :=
      some ("You have died while exploring the dungeon! Restart the game and try again.")
    options := [{ description := "Quit the game", key := KeyCode.Q, quits := true,
                  next_state := ProcessingState.Internal }]
    cancelable := false }

/-- The component state seen by `DamageSystem::clean_up`.  The `Player`
marker is `Option Unit`; the dialog slot is the `DialogInterface`
resource. -/
structure CleanupWorld where
  entities : List Nat
  names : Nat → Option Name
  players : Nat → Option Unit
  statistics : Nat → Option Statistics
  game_log : List LogMessage
  dialog : Option DialogInterface

/-- The scan loop of `clean_up`: every entity with `Statistics` and
`hp < 1` is examined; a dead `Player` logs to the console (dropped here)
and flips the `player_died` flag — with an `unwrap` panic when it has no
`Name` — and every dead entity carrying a `Name` is queued for deletion
with a death message.  Returns the queued entities, the flag and the
pushed messages. -/
def clean_up_scan (w : CleanupWorld) : List Nat → Option (List Nat × Bool × List LogMessage)
  | [] => some ([], false, [])
  | e :: rest =>
    match w.statistics e with
    | none => clean_up_scan w rest
    | some statistic =>
      if statistic.hp < 1 then
        if (w.players e).isSome ∧ w.names e = none then
          none
        else
          let contribution : List Nat × List LogMessage :=
            match w.names e with
            | some name => ([e], [LogMessage.hasDied name.name])
            | none => ([], [])
          match clean_up_scan w rest with
          | none => none
          | some (defeated, player_died, messages) =>
            some (contribution.1 ++ defeated,
              (w.players e).isSome || player_died,
              contribution.2 ++ messages)
      else
        clean_up_scan w rest

/-- `DamageSystem::clean_up`: scan all entities, register the terminal
death dialog when the player died (replacing any registered dialog), and
delete all queued entities in one batch at the end. -/
def clean_up (w : CleanupWorld) : Option CleanupWorld :=
  match clean_up_scan w w.entities with
  | none => none
  | some (defeated, player_died, messages) =>
    some { entities := w.entities.filter (fun e => decide (e ∉ defeated))
           names := fun e => if e ∈ defeated then none else w.names e
           players := fun e => if e ∈ defeated then none else w.players e
           statistics := fun e => if e ∈ defeated then none else w.statistics e
           game_log := w.game_log ++ messages
           dialog := if player_died then some death_dialog else w.dialog }

/-- Characterization of the scan: queued entities are exactly the dead
named ones, the flag is set exactly when a dead player was seen, and
every dead named entity contributed its death message. -/
theorem clean_up_scan_spec (w : CleanupWorld) :
    ∀ (l : List Nat) (defeated : List Nat) (player_died : Bool)
      (messages : List LogMessage),
      clean_up_scan w l = some (defeated, player_died, messages) →
      (∀ x, x ∈ defeated ↔
        (x ∈ l ∧ ∃ s n, w.statistics x = some s ∧ s.hp < 1 ∧ w.names x = some n))
      ∧ (player_died = true ↔
          ∃ x, x ∈ l ∧ ∃ s, w.statistics x = some s ∧ s.hp < 1 ∧ (w.players x).isSome)
      ∧ (∀ x s n, x ∈ l → w.statistics x = some s → s.hp < 1 →
          w.names x = some n → LogMessage.hasDied n.name ∈ messages) := by
  intro l
  induction l with
  | nil =>
    intro defeated player_died messages h
    cases h
    refine ⟨fun x => by simp, by simp, fun x s n hx => by simp at hx⟩
  | cons e rest ih =>
    intro defeated player_died messages h
    unfold clean_up_scan at h
    cases hs : w.statistics e with
    | none =>
      rw [hs] at h
      obtain ⟨h1, h2, h3⟩ := ih defeated player_died messages h
      refine ⟨?_, ?_, ?_⟩
      · intro x
        rw [h1 x]
        constructor
        · rintro ⟨hx, hrest⟩
          exact ⟨List.mem_cons_of_mem e hx, hrest⟩
        · rintro ⟨hx, s, n, hxs, hdead, hxn⟩
          rcases List.mem_cons.mp hx with h4 | h4
          · rw [h4] at hxs
            rw [hs] at hxs
            cases hxs
          · exact ⟨h4, s, n, hxs, hdead, hxn⟩
      · rw [h2]
        constructor
        · rintro ⟨x, hx, hrest⟩
          exact ⟨x, List.mem_cons_of_mem e hx, hrest⟩
        · rintro ⟨x, hx, s, hxs, hdead, hp⟩
          rcases List.mem_cons.mp hx with h4 | h4
          · rw [h4] at hxs
            rw [hs] at hxs
            cases hxs
          · exact ⟨x, h4, s, hxs, hdead, hp⟩
      · intro x s n hx hxs hdead hxn
        rcases List.mem_cons.mp hx with h4 | h4
        · rw [h4] at hxs
          rw [hs] at hxs
          cases hxs
        · exact h3 x s n h4 hxs hdead hxn
    | some statistic =>
      rw [hs] at h
      dsimp only at h
      by_cases hdead : statistic.hp < 1
      · rw [if_pos hdead] at h
        by_cases hpanic : (w.players e).isSome ∧ w.names e = none
        · rw [if_pos hpanic] at h
          cases h
        · rw [if_neg hpanic] at h
          cases hscan : clean_up_scan w rest with
          | none =>
            rw [hscan] at h
            cases h
          | some triple =>
            obtain ⟨defeated0, player_died0, messages0⟩ := triple
            rw [hscan] at h
            dsimp only at h
            obtain ⟨h1, h2, h3⟩ := ih defeated0 player_died0 messages0 hscan
            cases hn : w.names e with
            | none =>
              rw [hn] at h
              dsimp only at h
              cases h
              have hplayer : (w.players e).isSome = false := by
                by_cases hp : (w.players e).isSome
                · exact absurd ⟨hp, hn⟩ hpanic
                · simpa using hp
              refine ⟨?_, ?_, ?_⟩
              · intro x
                rw [List.nil_append, h1 x]
                constructor
                · rintro ⟨hx, hrest⟩
                  exact ⟨List.mem_cons_of_mem e hx, hrest⟩
                · rintro ⟨hx, s, n, hxs, hxdead, hxn⟩
                  rcases List.mem_cons.mp hx with h4 | h4
                  · rw [h4] at hxn
                    rw [hn] at hxn
                    cases hxn
                  · exact ⟨h4, s, n, hxs, hxdead, hxn⟩
              · rw [hplayer, Bool.false_or, h2]
                constructor
                · rintro ⟨x, hx, hrest⟩
                  exact ⟨x, List.mem_cons_of_mem e hx, hrest⟩
                · rintro ⟨x, hx, s, hxs, hxdead, hp⟩
                  rcases List.mem_cons.mp hx with h4 | h4
                  · rw [h4] at hp
                    rw [hplayer] at hp
                    cases hp
                  · exact ⟨x, h4, s, hxs, hxdead, hp⟩
              · intro x s n hx hxs hxdead hxn
                rcases List.mem_cons.mp hx with h4 | h4
                · rw [h4] at hxn
                  rw [hn] at hxn
                  cases hxn
                · exact h3 x s n h4 hxs hxdead hxn
            | some name =>
              rw [hn] at h
              dsimp only at h
              cases h
              refine ⟨?_, ?_, ?_⟩
              · intro x
                constructor
                · intro hx
                  rcases List.mem_cons.mp hx with h4 | h4
                  · rw [h4]
                    exact ⟨List.mem_cons_self e rest, statistic, name, hs, hdead, hn⟩
                  · obtain ⟨hx5, hrest⟩ := (h1 x).mp h4
                    exact ⟨List.mem_cons_of_mem e hx5, hrest⟩
                · rintro ⟨hx, s, n, hxs, hxdead, hxn⟩
                  rcases List.mem_cons.mp hx with h4 | h4
                  · rw [h4]
                    exact List.mem_cons_self e defeated0
                  · exact List.mem_cons_of_mem e ((h1 x).mpr ⟨h4, s, n, hxs, hxdead, hxn⟩)
              · constructor
                · intro hor
                  rcases Bool.or_eq_true_iff.mp hor with hp | hrest
                  · exact ⟨e, List.mem_cons_self e rest, statistic, hs, hdead, hp⟩
                  · obtain ⟨x, hx, hfacts⟩ := h2.mp hrest
                    exact ⟨x, List.mem_cons_of_mem e hx, hfacts⟩
                · rintro ⟨x, hx, s, hxs, hxdead, hp⟩
                  rcases List.mem_cons.mp hx with h4 | h4
                  · rw [h4] at hp
                    rw [Bool.or_eq_true_iff]
                    exact Or.inl hp
                  · rw [Bool.or_eq_true_iff]
                    exact Or.inr (h2.mpr ⟨x, h4, s, hxs, hxdead, hp⟩)
              · intro x s n hx hxs hxdead hxn
                rcases List.mem_cons.mp hx with h4 | h4
                · rw [h4] at hxn
                  rw [hn] at hxn
                  cases hxn
                  exact List.mem_cons_self _ messages0
                · exact List.mem_cons_of_mem _ (h3 x s n h4 hxs hxdead hxn)
      · rw [if_neg hdead] at h
        obtain ⟨h1, h2, h3⟩ := ih defeated player_died messages h
        refine ⟨?_, ?_, ?_⟩
        · intro x
          rw [h1 x]
          constructor
          · rintro ⟨hx, hrest⟩
            exact ⟨List.mem_cons_of_mem e hx, hrest⟩
          · rintro ⟨hx, s, n, hxs, hxdead, hxn⟩
            rcases List.mem_cons.mp hx with h4 | h4
            · rw [h4] at hxs
              rw [hs] at hxs
              cases hxs
              exact absurd hxdead hdead
            · exact ⟨h4, s, n, hxs, hxdead, hxn⟩
        · rw [h2]
          constructor
          · rintro ⟨x, hx, hrest⟩
            exact ⟨x, List.mem_cons_of_mem e hx, hrest⟩
          · rintro ⟨x, hx, s, hxs, hxdead, hp⟩
            rcases List.mem_cons.mp hx with h4 | h4
            · rw [h4] at hxs
              rw [hs] at hxs
              cases hxs
              exact absurd hxdead hdead
            · exact ⟨x, h4, s, hxs, hxdead, hp⟩
        · intro x s n hx hxs hxdead hxn
          rcases List.mem_cons.mp hx with h4 | h4
          · rw [h4] at hxs
            rw [hs] at hxs
            cases hxs
            exact absurd hxdead hdead
          · exact h3 x s n h4 hxs hxdead hxn

/-- C1 (amended): in the per-tick cleanup, a dead player (hp < 1 with a
`Player` marker) registers the terminal death dialog — but because the
player carries a `Name`, the player entity is, like every other dead
named entity, queued for deletion with a death message and deleted in the
batch at the end of cleanup; deletion is keyed on carrying a `Name`, not
on being a monster.  Entities that are alive, have no `Statistics` or
carry no `Name` survive the batch. -/
theorem clean_up_spec (w w' : CleanupWorld) (e : Nat) (s : Statistics)
    (hrun : clean_up w = some w')
    (he : e ∈ w.entities) (hs : w.statistics e = some s) (hdead : s.hp < 1) :
    (∀ n : Name, w.names e = some n →
      e ∉ w'.entities ∧ LogMessage.hasDied n.name ∈ w'.game_log)
    ∧ ((w.players e).isSome → w'.dialog = some death_dialog)
    ∧ (∀ x, x ∈ w.entities →
        ((∀ s1, w.statistics x = some s1 → 1 ≤ s1.hp) ∨ w.names x = none) →
        x ∈ w'.entities) := by
  unfold clean_up at hrun
  cases hscan : clean_up_scan w w.entities with
  | none =>
    rw [hscan] at hrun
    cases hrun
  | some triple =>
    obtain ⟨defeated, player_died, messages⟩ := triple
    rw [hscan] at hrun
    dsimp only at hrun
    cases hrun
    obtain ⟨h1, h2, h3⟩ := clean_up_scan_spec w w.entities defeated player_died
      messages hscan
    refine ⟨?_, ?_, ?_⟩
    · intro n hn
      constructor
      · intro hmem
        have := (List.mem_filter.mp hmem).2
        have hdef : e ∈ defeated := (h1 e).mpr ⟨he, s, n, hs, hdead, hn⟩
        simp at this
        exact this hdef
      · exact List.mem_append_right _ (h3 e s n he hs hdead hn)
    · intro hplayer
      have : player_died = true := h2.mpr ⟨e, he, s, hs, hdead, hplayer⟩
      dsimp only
      rw [this, if_pos rfl]
    · intro x hx halive
      have hnot : x ∉ defeated := by
        intro hdef
        obtain ⟨_, s1, n1, hxs, hxdead, hxn⟩ := (h1 x).mp hdef
        rcases halive with hl | hl
        · have := hl s1 hxs
          omega
        · rw [hl] at hxn
          cases hxn
      apply List.mem_filter.mpr
      exact ⟨hx, by simpa using hnot⟩

/-- The C1 counterexample world: a single dead player entity 0 named
"Rouge" (the player factory attaches a `Name`). -/
def deadPlayerWorld : CleanupWorld :=
  { entities := [0]
    names := fun e => if e = 0 then some { name := "Rouge" } else none
    players := fun e => if e = 0 then some () else none
    statistics := fun e =>
      if e = 0 then some { hp_max := 30, hp := 0, power := 5, defense := 3 } else none
    game_log := []
    dialog := none }

/-- C1 counterexample: cleanup of the dead player world registers the
terminal death dialog but also deletes the player entity (it carries a
`Name`, so it is queued with all other named dead entities) — refuting
the claim that the player entity survives the batch deletion. -/
theorem clean_up_player_deleted_counterexample :
    (clean_up deadPlayerWorld).map (fun w => decide (0 ∈ w.entities)) = some false
    ∧ (clean_up deadPlayerWorld).map (fun w => w.dialog) = some (some death_dialog) := by
  refine ⟨rfl, rfl⟩

/-- A world for the C1 witness: a live player 1 and a dead goblin 2. -/
def deadMonsterWorld : CleanupWorld :=
  { entities := [1, 2]
    names := fun e =>
      if e = 1 then some { name := "Rouge" }
      else if e = 2 then some { name := "Goblin" } else none
    players := fun e => if e = 1 then some () else none
    statistics := fun e =>
      if e = 1 then some { hp_max := 30, hp := 30, power := 5, defense := 3 }
      else if e = 2 then some { hp_max := 10, hp := 0, power := 2, defense := 1 } else none
    game_log := []
    dialog := none }

/-- Witness for `clean_up_spec`: the dead goblin is deleted with a death
message while the live player survives. -/
theorem clean_up_spec_witness :
    (clean_up deadMonsterWorld).map (fun w => decide (2 ∈ w.entities)) = some false
    ∧ (clean_up deadMonsterWorld).map (fun w => decide (1 ∈ w.entities)) = some true := by
  cases hrun : clean_up deadMonsterWorld with
  | none =>
    have hs : (clean_up deadMonsterWorld).isSome = true := rfl
    rw [hrun] at hs
    exact Bool.noConfusion hs
  | some w' =>
    have h := clean_up_spec deadMonsterWorld w' 2
      { hp_max := 10, hp := 0, power := 2, defense := 1 } hrun (by decide) rfl (by decide)
    have hgone : 2 ∉ w'.entities := (h.1 { name := "Goblin" } rfl).1
    have hstay : 1 ∈ w'.entities := by
      refine h.2.2 1 (by decide) (Or.inl ?_)
      intro s1 hs1
      have : deadMonsterWorld.statistics 1 =
          some { hp_max := 30, hp := 30, power := 5, defense := 3 } := rfl
      rw [this] at hs1
      cases hs1
      decide
    constructor
    · show some (decide (2 ∈ w'.entities)) = some false
      simp [hgone]
    · show some (decide (1 ∈ w'.entities)) = some true
      simp [hstay]

/-- C3 counterexample: on the all-unblocked 4×4 sample map, `(0, 0)` lies
inside `[0, width) × [0, height)` and its blocked flag is `false`, yet
`is_tile_walkable(0, 0)` returns `false` — refuting the claim that every
in-bounds tile yields the negation of its blocked flag. -/
theorem is_tile_walkable_origin_counterexample :
    sampleMap.is_tile_walkable 0 0 = false
    ∧ sampleMap.blocked_tiles (sampleMap.coordinates_to_idx 0 0) = false
    ∧ ((0 : Int) < sampleMap.width ∧ (0 : Int) < sampleMap.height) := by
  refine ⟨by decide, by decide, by decide, by decide⟩

end BRuge
